import Mathlib

/-!
Shallow embedding of the battleship game `rkubs.c` (rkubs 0.4).

The definitions below follow `src/rkubs.c`.  Characters are modelled by their
byte codes (natural numbers), `int` variables by `Int`, the `uint8_t` hit
counter by a natural number incremented modulo 256, `exit` by `none` (or a
dedicated constructor), and SHA-1 by an abstract function on byte lists.
-/

namespace Rkubs

/-! ## Constants -/

/-- Macro `#define BFIELD_SIZEY 9` -/
abbrev BFIELD_SIZEY : Nat := 9
/-- Macro `#define BFIELD_SIZEX BFIELD_SIZEY` -/
abbrev BFIELD_SIZEX : Nat := BFIELD_SIZEY
/-- Macro `#define RKUBS_NET_VERSION_N (uint8_t)5` -/
abbrev RKUBS_NET_VERSION_N : Nat := 5
/-- Macro `#define SHIP_COUNT 3` -/
abbrev SHIP_COUNT : Nat := 3
/-- Macro `#define SHIP_PIECES 12` -/
abbrev SHIP_PIECES : Nat := 12
/-- Macro `#define SHA_DIGEST_LENGTH 20` (openssl/sha.h) -/
abbrev SHA_DIGEST_LENGTH : Nat := 20

abbrev MSG_TYPE_REQUEST_GAMES : Nat := 0x00
abbrev MSG_TYPE_GAME_ANNOUNCE : Nat := 0x01
abbrev MSG_TYPE_GAME_JOIN : Nat := 0x02
abbrev MSG_TYPE_GAME_JOINED : Nat := 0x03
abbrev MSG_TYPE_GAME_QUIT : Nat := 0x04
abbrev MSG_TYPE_CHAT : Nat := 0x05
abbrev MSG_TYPE_READY : Nat := 0x06
abbrev MSG_TYPE_GAME_ATTACK : Nat := 0x07
abbrev MSG_TYPE_GAME_HIT : Nat := 0x08
abbrev MSG_TYPE_GAME_FAILED : Nat := 0x09
abbrev MSG_TYPE_GAME_FINISHED : Nat := 0x0a

abbrev SHIP_DIRECTION_H : Nat := 0x00
abbrev SHIP_DIRECTION_V : Nat := 0x01
abbrev SHIP_DIRECTION_DU : Nat := 0x02
abbrev SHIP_DIRECTION_DD : Nat := 0x03

/-- The character `'~'` (water). -/
abbrev chWater : Nat := 126
/-- The character `'?'` (unknown cell of the opponent's field). -/
abbrev chUnknown : Nat := 63
/-- The character `'X'` (a ship segment that was hit). -/
abbrev chHit : Nat := 88
/-- The character `'x'` (a shot that missed). -/
abbrev chMiss : Nat := 120
/-- The character `'1'`; ship `si` is drawn as `'1' + si`. -/
abbrev chOne : Nat := 49

/-- C `isdigit` in the "C" locale: the bytes `'0'..'9'`. -/
def isdigit (c : Nat) : Bool := decide (48 ≤ c ∧ c ≤ 57)

/-! ## Data model -/

/-- Models `struct _battlefield`: `field[y][x]`, the owner name, the `uint8_t` hit
counter and the 64 byte HMAC key. -/
structure battlefield where
  field : Fin 9 → Fin 9 → Nat
  player_name : List Nat
  hits : Nat
  key : Fin 64 → Nat

/-- Models `struct _coords` (two `uint8_t`). -/
structure coords where
  x : Nat
  y : Nat
deriving DecidableEq, Repr

/-- Models `struct _ship`. -/
structure ship where
  size : Nat
  direction : Nat
  position : coords
deriving DecidableEq, Repr

/-- Models `struct _net_msg`. -/
structure net_msg where
  msg_version : Nat
  msg_type : Nat
  attack_type : Nat
  point : coords
  game_name : List Nat
  player_name : List Nat
  data : List Nat
  field : battlefield

/-- Models `struct _game_session`, without the socket bookkeeping. -/
structure game_session where
  field_a : battlefield
  field_b : battlefield
  name : List Nat
  local_hash : List Nat
  opponent_hash : List Nat

/-- The global `ships` array as initialised in the source. -/
def ships : Fin 3 → ship
  | 0 => { size := 2, direction := SHIP_DIRECTION_H, position := ⟨0, 0⟩ }
  | 1 => { size := 4, direction := SHIP_DIRECTION_H, position := ⟨0, 0⟩ }
  | 2 => { size := 6, direction := SHIP_DIRECTION_H, position := ⟨0, 0⟩ }

/-- Writing `f[y][x] = v`. -/
def setCell (f : Fin 9 → Fin 9 → Nat) (y x : Fin 9) (v : Nat) : Fin 9 → Fin 9 → Nat :=
  fun r c => if r = y ∧ c = x then v else f r c

/-! ## `init_fields` -/

/-- Models `init_fields`: own field all water, opponent view all unknown, both hit
counters zero. -/
def init_fields (g : game_session) : game_session :=
  { g with
    field_a := { g.field_a with field := fun _ _ => chWater, hits := 0 }
    field_b := { g.field_b with field := fun _ _ => chUnknown, hits := 0 } }

/-! ## `set_ship` -/

/-- The `switch(s.direction)` at the end of the loop body of `set_ship`. -/
def shipStep (direction : Nat) (x y : Int) : Int × Int :=
  match direction with
  | 2 => (x + 1, y - 1)
  | 3 => (x + 1, y + 1)
  | 0 => (x + 1, y)
  | _ => (x, y + 1)

/-- The `for` loop of `set_ship`, `n` iterations left; `none` is the early
`return(FALSE)`.  The occupancy test reads the session's field `g`, the write
goes to the copy `tmpf`. -/
def set_ship_loop (g : battlefield) (si : Nat) (direction : Nat) :
    Nat → Int → Int → battlefield → Option battlefield
  | 0, _, _, tmpf => some tmpf
  | n + 1, x, y, tmpf =>
    if h : x < 0 ∨ y < 0 ∨ x ≥ (BFIELD_SIZEX : Int) ∨ y ≥ (BFIELD_SIZEY : Int) then none
    else
      let yi : Fin 9 := ⟨y.toNat, by simp only [BFIELD_SIZEX, BFIELD_SIZEY] at h; omega⟩
      let xi : Fin 9 := ⟨x.toNat, by simp only [BFIELD_SIZEX, BFIELD_SIZEY] at h; omega⟩
      if isdigit (g.field yi xi) then none
      else
        let tmpf1 := { tmpf with field := setCell tmpf.field yi xi ((chOne + si) % 256) }
        set_ship_loop g si direction n (shipStep direction x y).1 (shipStep direction x y).2 tmpf1

/-- Models `set_ship(g, si)`: the returned flag and the session afterwards.  `sh` is
the global `ships` array at the time of the call. -/
def set_ship (sh : Fin 3 → ship) (g : game_session) (si : Fin 3) : Bool × game_session :=
  let s := sh si
  let x : Int := s.position.x
  let y : Int := s.position.y
  match set_ship_loop g.field_a si.val s.direction s.size x y g.field_a with
  | none => (false, g)
  | some tmpf => (true, { g with field_a := tmpf })

/-! ## `attack` and `process_attack_response` -/

/-- Models `attack(g, field, msg)`: `none` is the `exit(-1)` on a malformed
coordinate; otherwise the returned flag and the field afterwards.  The
session argument is not used by the source and is left out. -/
def attack (field : battlefield) (msg : net_msg) : Option (Bool × battlefield) :=
  let x : Int := msg.point.x
  let y : Int := msg.point.y
  if h : x ≥ (BFIELD_SIZEX : Int) ∨ y ≥ (BFIELD_SIZEY : Int) ∨ x < 0 ∨ y < 0 then none
  else
    let yi : Fin 9 := ⟨y.toNat, by simp only [BFIELD_SIZEX, BFIELD_SIZEY] at h; omega⟩
    let xi : Fin 9 := ⟨x.toNat, by simp only [BFIELD_SIZEX, BFIELD_SIZEY] at h; omega⟩
    if isdigit (field.field yi xi) then
      some (true, { field with field := setCell field.field yi xi chHit,
                               hits := (field.hits + 1) % 256 })
    else
      some (false, { field with field := setCell field.field yi xi chMiss })

/-- Models `process_attack_response(g, msg)`.  The source indexes `field_b` with the
received coordinate without a bounds check; an index outside the array is
undefined behaviour and is modelled by `none`. -/
def process_attack_response (g : game_session) (msg : net_msg) : Option (Bool × game_session) :=
  if msg.msg_type = MSG_TYPE_GAME_HIT then
    if h : msg.point.y < 9 ∧ msg.point.x < 9 then
      some (true, { g with field_b :=
        { g.field_b with
          field := setCell g.field_b.field ⟨msg.point.y, h.1⟩ ⟨msg.point.x, h.2⟩ chHit,
          hits := (g.field_b.hits + 1) % 256 } })
    else none
  else if msg.msg_type = MSG_TYPE_GAME_FAILED then
    if h : msg.point.y < 9 ∧ msg.point.x < 9 then
      some (true, { g with field_b :=
        { g.field_b with
          field := setCell g.field_b.field ⟨msg.point.y, h.1⟩ ⟨msg.point.x, h.2⟩ chWater } })
    else none
  else some (false, g)

/-- Models `net_read`: the received frame, or `none` for the `exit(-1)` on a frame of
the wrong protocol version. -/
def net_read (incoming : net_msg) : Option net_msg :=
  if incoming.msg_version ≠ RKUBS_NET_VERSION_N then none else some incoming

/-! ## `hmac_battlefield` -/

/-- Models `SHA1_Init`: the context is modelled by the bytes fed so far. -/
def SHA1_Init : List Nat := []

/-- Models `SHA1_Update(&c, data, len)`: feed the first `len` bytes of `data`. -/
def SHA1_Update (c : List Nat) (data : List Nat) (len : Nat) : List Nat :=
  c ++ data.take len

/-- Models `SHA1_Final(md, &c)`: the digest of everything fed. -/
def SHA1_Final (sha1 : List Nat → List Nat) (c : List Nat) : List Nat :=
  sha1 c

/-- Models `bcopy(src, dst, n)`: the first `n` bytes of `dst` replaced by those of `src`. -/
def bcopy (src dst : List Nat) (n : Nat) : List Nat :=
  src.take n ++ dst.drop n

/-- State of the occupancy loop of `hmac_battlefield`: the `data` buffer, the
write pointer `p` (as an offset into `data`) and the counter `pieces`. -/
structure occ_state where
  data : List Nat
  p : Nat
  pieces : Nat
deriving DecidableEq, Repr

/-- Body of the inner loop: `*p = (field[i][x] == 'X' || isdigit(field[i][x])) ? 1 : 0;
if(*p++) pieces++;` -/
def hmac_cell (f : battlefield) (i x : Fin 9) (s : occ_state) : occ_state :=
  let v : Nat := if f.field i x = chHit ∨ isdigit (f.field i x) = true then 1 else 0
  { data := s.data.set s.p v
    p := s.p + 1
    pieces := if v ≠ 0 then s.pieces + 1 else s.pieces }

/-- The two nested `for` loops over rows `i` and columns `x`, started on the
zeroed buffer. -/
def hmac_data (f : battlefield) : occ_state :=
  (List.finRange 9).foldl
    (fun s i => (List.finRange 9).foldl (fun s x => hmac_cell f i x s) s)
    { data := List.replicate (BFIELD_SIZEX * BFIELD_SIZEY) 0, p := 0, pieces := 0 }

/-- The loop `for(i = 0; i < sizeof(f->key); i++) { k_ipad[i] ^= 0x36; k_opad[i] ^= 0x5c; }`. -/
def hmac_pads (k_ipad k_opad : List Nat) : List Nat × List Nat :=
  (List.range 64).foldl
    (fun s i => (s.1.set i (s.1.getD i 0 ^^^ 0x36), s.2.set i (s.2.getD i 0 ^^^ 0x5c)))
    (k_ipad, k_opad)

/-- Models `hmac_battlefield(f, buf)`: the digest written to `buf`.  `sha1` stands for
the SHA-1 function of the crypto library. -/
def hmac_battlefield (sha1 : List Nat → List Nat) (f : battlefield) : List Nat :=
  let data := (hmac_data f).data
  let k_ipad := bcopy (List.ofFn f.key) (List.replicate 65 0) 64
  let k_opad := bcopy (List.ofFn f.key) (List.replicate 65 0) 64
  let pads := hmac_pads k_ipad k_opad
  let c := SHA1_Update (SHA1_Update SHA1_Init pads.1 64) data (BFIELD_SIZEX * BFIELD_SIZEY)
  let buf := SHA1_Final sha1 c
  let c := SHA1_Update (SHA1_Update SHA1_Init pads.2 64) buf SHA_DIGEST_LENGTH
  SHA1_Final sha1 c

/-- The warning `Field with invalid ship count!` of `hmac_battlefield`
(`pieces != SHIP_PIECES`). -/
def hmac_ship_count_warning (f : battlefield) : Bool :=
  decide ((hmac_data f).pieces ≠ SHIP_PIECES)

/-- Models `memcmp(a, b, n) != 0`. -/
def memcmp_ne (a b : List Nat) (n : Nat) : Bool :=
  decide (a.take n ≠ b.take n)

/-- Models `memcpy(dst, src, n)`. -/
def memcpy (dst src : List Nat) (n : Nat) : List Nat :=
  src.take n ++ dst.drop n

/-! ## The Ready exchange of `game` -/

/-- The commitment step of `game`: `hmac_battlefield(&g->field_a, &g->local_hash)`
(the key has been filled from the random device before). -/
def game_commit (sha1 : List Nat → List Nat) (g : game_session) : game_session :=
  { g with local_hash := hmac_battlefield sha1 g.field_a }

/-- The Ready message: type and version set, the local hash copied to `data`. -/
def game_ready_msg (g : game_session) (msg : net_msg) : net_msg :=
  { msg with
    msg_type := MSG_TYPE_READY
    msg_version := RKUBS_NET_VERSION_N
    data := memcpy msg.data g.local_hash SHA_DIGEST_LENGTH }

/-- Receiving the opponent's Ready message:
`memcpy(g->opponent_hash, &msg.data, sizeof(g->opponent_hash))`. -/
def game_store_ready (g : game_session) (msg : net_msg) : game_session :=
  { g with opponent_hash := memcpy g.opponent_hash msg.data SHA_DIGEST_LENGTH }

/-! ## `finish` -/

/-- Body of the merge loop of `finish` for the cell `[r][c]`. -/
def finish_merge_cell (revealed : Fin 9 → Fin 9 → Nat) (r c : Fin 9)
    (fb : Fin 9 → Fin 9 → Nat) : Fin 9 → Fin 9 → Nat :=
  if fb r c ≠ chHit ∧ fb r c ≠ chMiss then setCell fb r c (revealed r c) else fb

/-- The two nested `for` loops of `finish` that merge the revealed field into
the local view `field_b`. -/
def finish_merge_field (fb revealed : Fin 9 → Fin 9 → Nat) : Fin 9 → Fin 9 → Nat :=
  (List.finRange 9).foldl
    (fun f r => (List.finRange 9).foldl (fun f c => finish_merge_cell revealed r c f) f)
    fb

/-- The merge of `finish` on `field_b`: the cell loop followed by the `memcpy`
of the revealed key. -/
def finish_merge (field_b revealed : battlefield) : battlefield :=
  { field_b with
    field := finish_merge_field field_b.field revealed.field
    key := revealed.key }

/-- Who `finish` names in `*** %s WON the game! ***`. -/
inductive winner where
  | you
  | opponent
deriving DecidableEq, Repr

/-- The expression `(g->field_a.hits > g->field_b.hits) ? g->field_b.player_name : "You"`. -/
def finish_winner (g : game_session) : winner :=
  if g.field_a.hits > g.field_b.hits then winner.opponent else winner.you

/-- The hash check of `finish`: `true` when `HASH CHECK FAILED!` is printed. -/
def finish_hash_check_failed (sha1 : List Nat → List Nat) (g : game_session) : Bool :=
  memcmp_ne (hmac_battlefield sha1 g.field_b) g.opponent_hash SHA_DIGEST_LENGTH

/-- The GameFinished frame `finish` sends first. -/
def finish_msg (g : game_session) (msg : net_msg) : net_msg :=
  { msg with
    msg_version := RKUBS_NET_VERSION_N
    msg_type := MSG_TYPE_GAME_FINISHED
    field := g.field_a }

/-- How a call of `finish` ends on a given stream of incoming frames. -/
inductive finish_result where
  /-- Case `Game over.`, `exit(0)`: the session, the winner, the cheating warning -/
  | game_over (g : game_session) (w : winner) (cheat_warning : Bool)
  /-- Case `exit(-1)` inside `net_read` -/
  | aborted
  /-- the stream ended while `finish` was still reading -/
  | blocked

/-- Models `finish(g)` after its `net_write`: read until a GameFinished frame comes,
merge, name the winner, check the hash. -/
def finish (sha1 : List Nat → List Nat) (g : game_session) : List net_msg → finish_result
  | [] => finish_result.blocked
  | m :: rest =>
    match net_read m with
    | none => finish_result.aborted
    | some msg =>
      if msg.msg_type = MSG_TYPE_GAME_FINISHED then
        let g1 := { g with field_b := finish_merge g.field_b msg.field }
        finish_result.game_over g1 (finish_winner g1) (finish_hash_check_failed sha1 g1)
      else finish sha1 g rest

/-! ## The turn loop of `game` -/

/-- Models `bool wait_for_opponent = (!create_game);` -/
def game_initial_wait (create_game : Bool) : Bool := !create_game

/-- What an iteration of the turn loop does first. -/
inductive turn_action where
  /-- the `while(1)` loop reading the opponent's attack -/
  | read_attack
  /-- Case `finish(g)` -/
  | finish
  /-- Case `read_input(..., "your attack (? for help)")` -/
  | prompt_move
deriving DecidableEq, Repr

/-- Head of the turn loop body: `if(wait_for_opponent) { ... }`, then
`if(g->field_a.hits >= SHIP_PIECES) finish(g);`, then the prompt. -/
def game_turn_head (g : game_session) (wait_for_opponent : Bool) : turn_action :=
  if wait_for_opponent then turn_action.read_attack
  else if g.field_a.hits ≥ SHIP_PIECES then turn_action.finish
  else turn_action.prompt_move

/-- How the loop that waits for the opponent's attack ends. -/
inductive wait_result where
  /-- an attack was processed and answered with `reply`; `rest` is unread -/
  | attacked (g : game_session) (reply : net_msg) (rest : List net_msg)
  /-- Case `*** %s has left the game.`, `exit(1)` -/
  | opponent_left
  /-- Case `exit(-1)`: wrong version or malformed attack -/
  | aborted
  /-- the stream ended while the loop was still reading; `invalid` counts the
  `Invalid message type received!` diagnostics -/
  | blocked (g : game_session) (invalid : Nat)

/-- The `while(1)` loop of `game` that waits for the opponent's attack. -/
def game_wait_loop (g : game_session) (invalid : Nat) : List net_msg → wait_result
  | [] => wait_result.blocked g invalid
  | m :: rest =>
    match net_read m with
    | none => wait_result.aborted
    | some msg =>
      if msg.msg_type = MSG_TYPE_GAME_ATTACK then
        match attack g.field_a msg with
        | none => wait_result.aborted
        | some (true, fa) =>
          wait_result.attacked { g with field_a := fa }
            { msg with msg_type := MSG_TYPE_GAME_HIT } rest
        | some (false, fa) =>
          wait_result.attacked { g with field_a := fa }
            { msg with msg_type := MSG_TYPE_GAME_FAILED } rest
      else if msg.msg_type = MSG_TYPE_GAME_QUIT then wait_result.opponent_left
      else game_wait_loop g (invalid + 1) rest

/-- How the loop that waits for the response to the own attack ends. -/
inductive response_result where
  /-- Case `process_attack_response` returned TRUE; `rest` is unread -/
  | responded (g : game_session) (rest : List net_msg)
  /-- Case `exit(-1)` inside `net_read` -/
  | aborted
  /-- out-of-range index in `process_attack_response` -/
  | undefined
  /-- the stream ended while the loop was still reading -/
  | blocked (g : game_session)

/-- The loop `while(1) { net_read(g, &msg); if(process_attack_response(g, &msg)) break; }`. -/
def game_response_loop (g : game_session) : List net_msg → response_result
  | [] => response_result.blocked g
  | m :: rest =>
    match net_read m with
    | none => response_result.aborted
    | some msg =>
      match process_attack_response g msg with
      | none => response_result.undefined
      | some (true, g1) => response_result.responded g1 rest
      | some (false, g1) => game_response_loop g1 rest

/-! ## Specification-side notions -/

/-- The four orientations the specification names. -/
inductive Orientation where
  | horizontal
  | vertical
  | diagonalUp
  | diagonalDown
deriving DecidableEq, Repr

/-- The `SHIP_DIRECTION_*` code of an orientation. -/
def Orientation.code : Orientation → Nat
  | Orientation.horizontal => SHIP_DIRECTION_H
  | Orientation.vertical => SHIP_DIRECTION_V
  | Orientation.diagonalUp => SHIP_DIRECTION_DU
  | Orientation.diagonalDown => SHIP_DIRECTION_DD

/-- The delta of an orientation in the specification's words: `{+1,0}`
horizontal, `{0,+1}` vertical, `{+1,-1}` diagonal-up, `{+1,+1}` diagonal-down. -/
def Orientation.delta : Orientation → Int × Int
  | Orientation.horizontal => (1, 0)
  | Orientation.vertical => (0, 1)
  | Orientation.diagonalUp => (1, -1)
  | Orientation.diagonalDown => (1, 1)

/-- The `i`-th cell `(x, y)` of the run that starts at `anchor` and steps by `d`. -/
def runCell (anchor : coords) (d : Int × Int) (i : Nat) : Int × Int :=
  ((anchor.x : Int) + i * d.1, (anchor.y : Int) + i * d.2)

/-- The delta that the `switch` of `set_ship` applies for a direction byte
(every byte other than H, DU, DD steps like V). -/
def dirDelta (direction : Nat) : Int × Int :=
  match direction with
  | 2 => (1, -1)
  | 3 => (1, 1)
  | 0 => (1, 0)
  | _ => (0, 1)

/-- The cell `(x, y)` lies in the 9x9 grid. -/
def inGrid (p : Int × Int) : Prop :=
  0 ≤ p.1 ∧ p.1 < 9 ∧ 0 ≤ p.2 ∧ p.2 < 9

instance (p : Int × Int) : Decidable (inGrid p) := by
  unfold inGrid; infer_instance

/-- The cell `(x, y)` is in the grid and holds a ship character (a digit). -/
def occupiedAt (f : battlefield) (p : Int × Int) : Prop :=
  ∃ r c : Fin 9, ((c : Nat) : Int) = p.1 ∧ ((r : Nat) : Int) = p.2 ∧ isdigit (f.field r c) = true

instance (f : battlefield) (p : Int × Int) : Decidable (occupiedAt f p) := by
  unfold occupiedAt; infer_instance

/-- The cell `[r][c]` belongs to the first `n` cells of the run. -/
def onRun (anchor : coords) (d : Int × Int) (n : Nat) (r c : Fin 9) : Prop :=
  ∃ i, i < n ∧ runCell anchor d i = (((c : Nat) : Int), ((r : Nat) : Int))

instance (anchor : coords) (d : Int × Int) (n : Nat) (r c : Fin 9) :
    Decidable (onRun anchor d n r c) := by
  unfold onRun; infer_instance

/-- A frame that carries only a type and a coordinate (all other parts blank). -/
def mk_msg (msg_type : Nat) (point : coords) : net_msg :=
  { msg_version := RKUBS_NET_VERSION_N
    msg_type := msg_type
    attack_type := 0
    point := point
    game_name := []
    player_name := []
    data := []
    field := { field := fun _ _ => 0, player_name := [], hits := 0, key := fun _ => 0 } }

/-- A field of water only, with no hits and a zero key. -/
def water_field : battlefield :=
  { field := fun _ _ => chWater, player_name := [], hits := 0, key := fun _ => 0 }

/-- A session as `init_fields` leaves it, with blank names and hashes. -/
def fresh_session : game_session :=
  init_fields
    { field_a := water_field, field_b := water_field, name := [],
      local_hash := [], opponent_hash := [] }

/-- The global `ships` array after `ships[si].direction = d; ships[si].position = pos`. -/
def place (sh : Fin 3 → ship) (si : Fin 3) (d : Nat) (pos : coords) : Fin 3 → ship :=
  fun j => if j = si then { sh j with direction := d, position := pos } else sh j

/-- A field whose cell `[0][0]` holds ship `'1'`, all else water, with the
given hit counter. -/
def one_ship_field (hits : Nat) : battlefield :=
  { field := fun r c => if r = 0 ∧ c = 0 then chOne else chWater
    player_name := [], hits := hits, key := fun _ => 0 }

/-- The test `field[i][x] == 'X' || isdigit(field[i][x])` of `hmac_battlefield`:
the cell holds a ship segment, intact or hit. -/
def occupied (ch : Nat) : Bool := decide (ch = chHit ∨ isdigit ch = true)

/-- The occupancy vector in the specification's words: the row-major
flattening of "is this cell ship-occupied", one byte per cell. -/
def occupancy_vector (f : battlefield) : List Nat :=
  (List.finRange 9).flatMap fun r =>
    (List.finRange 9).map fun c => if occupied (f.field r c) = true then 1 else 0

/-- The key block of HMAC (RFC 2104) for the block size 64 of SHA-1: a longer
key is hashed first, a shorter one is padded with zero bytes. -/
def hmac_key_block (sha1 : List Nat → List Nat) (key : List Nat) : List Nat :=
  let k := if key.length > 64 then sha1 key else key
  k ++ List.replicate (64 - k.length) 0

/-- HMAC-SHA1 as RFC 2104 defines it:
`H((K xor opad) || H((K xor ipad) || text))`. -/
def HMAC_SHA1 (sha1 : List Nat → List Nat) (key text : List Nat) : List Nat :=
  sha1 ((hmac_key_block sha1 key).map (fun k => k ^^^ 0x5c) ++
    sha1 ((hmac_key_block sha1 key).map (fun k => k ^^^ 0x36) ++ text))

/-- The attacks of a list of GameAttack frames applied in order to one field,
as the turn loop applies them to `field_a`; `none` when one of them aborts. -/
def attacks : battlefield → List net_msg → Option battlefield
  | b, [] => some b
  | b, m :: ms =>
    match attack b m with
    | none => none
    | some res => attacks res.2 ms

/-- The value the occupancy loop writes for the cell `[i][x]`. -/
def occ_byte (f : battlefield) (i x : Fin 9) : Nat :=
  if occupied (f.field i x) = true then 1 else 0

/-- A stand-in for SHA-1 used in examples: 20 bytes long and free of
collisions (the first entry encodes the whole input). -/
def toy_sha1 (m : List Nat) : List Nat :=
  Encodable.encode m :: List.replicate 19 0

/-- The value the merge of `finish` leaves in the cell `[r][c]`: the local mark
where the local view holds `'X'` or `'x'`, the revealed cell elsewhere. -/
def merged_cell (fb revealed : Fin 9 → Fin 9 → Nat) (r c : Fin 9) : Nat :=
  if fb r c ≠ chHit ∧ fb r c ≠ chMiss then revealed r c else fb r c

/-- The local view of the opponent's field after one GameHit response for the
cell (0,0): `'X'` there, `'?'` elsewhere, one hit counted. -/
def hit_view : battlefield :=
  { field := fun r c => if r = 0 ∧ c = 0 then chHit else chUnknown
    player_name := [], hits := 1, key := fun _ => 0 }

/-- A session with the given two fields and blank names and hashes. -/
def session_of (fa fb : battlefield) : game_session :=
  { field_a := fa, field_b := fb, name := [], local_hash := [], opponent_hash := [] }

/-- The receiver's session after the Ready frame of a player who committed to
the field `committed` has been stored, with local view `view`. -/
def receiver_after_ready (sha1 : List Nat → List Nat) (committed view : battlefield) :
    game_session :=
  game_store_ready (session_of water_field view)
    (game_ready_msg (game_commit sha1 (session_of committed water_field))
      (mk_msg MSG_TYPE_READY ⟨0, 0⟩))

/-- The GameFinished frame by which a player reveals the field `revealed`. -/
def reveal_msg (revealed : battlefield) : net_msg :=
  finish_msg (session_of revealed water_field) (mk_msg MSG_TYPE_GAME_FINISHED ⟨0, 0⟩)

/-- The function `attack` with the memory made explicit: the field as it
stands when the call returns or exits, and the returned flag (`none` for the
`exit(-1)` on a malformed coordinate, which comes before any write). -/
def attack_mem (field : battlefield) (msg : net_msg) : battlefield × Option Bool :=
  let x : Int := msg.point.x
  let y : Int := msg.point.y
  if h : x ≥ (BFIELD_SIZEX : Int) ∨ y ≥ (BFIELD_SIZEY : Int) ∨ x < 0 ∨ y < 0 then (field, none)
  else
    let yi : Fin 9 := ⟨y.toNat, by simp only [BFIELD_SIZEX, BFIELD_SIZEY] at h; omega⟩
    let xi : Fin 9 := ⟨x.toNat, by simp only [BFIELD_SIZEX, BFIELD_SIZEY] at h; omega⟩
    if isdigit (field.field yi xi) then
      ({ field with field := setCell field.field yi xi chHit,
                    hits := (field.hits + 1) % 256 }, some true)
    else
      ({ field with field := setCell field.field yi xi chMiss }, some false)

/-- The number of intact ship segments of a field: the cells that hold a ship
character (a digit). -/
def intact_count (f : battlefield) : Nat :=
  ∑ p : Fin 9 × Fin 9, if isdigit (f.field p.1 p.2) = true then 1 else 0

/-! ## Lemmas on `set_ship` -/

theorem shipStep_eq (d : Nat) (x y : Int) :
    shipStep d x y = (x + (dirDelta d).1, y + (dirDelta d).2) := by
  unfold shipStep dirDelta
  split <;> simp [sub_eq_add_neg]

theorem dirDelta_code (o : Orientation) : dirDelta o.code = o.delta := by
  cases o <;> rfl

theorem set_ship_loop_out (g : battlefield) (si d n : Nat) (x y : Int) (tmpf : battlefield)
    (h : ¬ inGrid (x, y)) : set_ship_loop g si d (n + 1) x y tmpf = none := by
  have h1 : x < 0 ∨ y < 0 ∨ x ≥ (BFIELD_SIZEX : Int) ∨ y ≥ (BFIELD_SIZEY : Int) := by
    simp only [inGrid, BFIELD_SIZEX, BFIELD_SIZEY] at h ⊢
    omega
  simp only [set_ship_loop]
  rw [dif_pos h1]

theorem set_ship_loop_in (g : battlefield) (si d n : Nat) (x y : Int) (tmpf : battlefield)
    (r c : Fin 9) (hx : ((c : Nat) : Int) = x) (hy : ((r : Nat) : Int) = y) :
    set_ship_loop g si d (n + 1) x y tmpf =
      if isdigit (g.field r c) = true then none
      else set_ship_loop g si d n (x + (dirDelta d).1) (y + (dirDelta d).2)
        { tmpf with field := setCell tmpf.field r c ((chOne + si) % 256) } := by
  have h1 : ¬ (x < 0 ∨ y < 0 ∨ x ≥ (BFIELD_SIZEX : Int) ∨ y ≥ (BFIELD_SIZEY : Int)) := by
    have := r.isLt
    have := c.isLt
    simp only [BFIELD_SIZEX, BFIELD_SIZEY]
    omega
  have hr : (⟨y.toNat, by have := r.isLt; omega⟩ : Fin 9) = r := by
    apply Fin.ext; simp only; omega
  have hc : (⟨x.toNat, by have := c.isLt; omega⟩ : Fin 9) = c := by
    apply Fin.ext; simp only; omega
  simp only [set_ship_loop]
  rw [dif_neg h1]
  simp only [hr, hc, shipStep_eq]

theorem inGrid_fin {p : Int × Int} (h : inGrid p) :
    ∃ r c : Fin 9, ((c : Nat) : Int) = p.1 ∧ ((r : Nat) : Int) = p.2 := by
  obtain ⟨h1, h2, h3, h4⟩ := h
  refine ⟨⟨p.2.toNat, by omega⟩, ⟨p.1.toNat, by omega⟩, ?_, ?_⟩ <;> simp only <;> omega

theorem not_occupiedAt_fin {f : battlefield} {p : Int × Int} (h : ¬ occupiedAt f p)
    (r c : Fin 9) (hc : ((c : Nat) : Int) = p.1) (hr : ((r : Nat) : Int) = p.2) :
    isdigit (f.field r c) = false := by
  cases hd : isdigit (f.field r c)
  · rfl
  · exact absurd ⟨r, c, hc, hr, hd⟩ h

/-- The loop succeeds when every cell of the run is in the grid and free, and
then it has written the ship character to exactly the cells of the run. -/
theorem set_ship_loop_some (g : battlefield) (si d : Nat) :
    ∀ (n : Nat) (x y : Int) (tmpf : battlefield),
      (∀ i, i < n → inGrid (x + i * (dirDelta d).1, y + i * (dirDelta d).2) ∧
        ¬ occupiedAt g (x + i * (dirDelta d).1, y + i * (dirDelta d).2)) →
      set_ship_loop g si d n x y tmpf =
        some { tmpf with field := fun r c =>
          if ∃ i, i < n ∧ (x + i * (dirDelta d).1, y + i * (dirDelta d).2)
              = (((c : Nat) : Int), ((r : Nat) : Int))
          then (chOne + si) % 256 else tmpf.field r c } := by
  intro n
  induction n with
  | zero =>
    intro x y tmpf _
    simp [set_ship_loop]
  | succ n ih =>
    intro x y tmpf h
    have h0 := h 0 (Nat.succ_pos n)
    simp only [Nat.cast_zero, zero_mul, add_zero] at h0
    obtain ⟨r0, c0, hc0, hr0⟩ := inGrid_fin h0.1
    have hfree := not_occupiedAt_fin h0.2 r0 c0 hc0 hr0
    simp only at hc0 hr0
    rw [set_ship_loop_in g si d n x y tmpf r0 c0 hc0 hr0, hfree]
    simp only [Bool.false_eq_true, if_false]
    rw [ih]
    · congr 1
      have hf : (fun (r c : Fin 9) =>
          if ∃ i, i < n ∧ (x + (dirDelta d).1 + i * (dirDelta d).1,
              y + (dirDelta d).2 + i * (dirDelta d).2) = (((c : Nat) : Int), ((r : Nat) : Int))
          then (chOne + si) % 256 else setCell tmpf.field r0 c0 ((chOne + si) % 256) r c)
          = (fun (r c : Fin 9) =>
          if ∃ i, i < n + 1 ∧ (x + i * (dirDelta d).1, y + i * (dirDelta d).2)
              = (((c : Nat) : Int), ((r : Nat) : Int))
          then (chOne + si) % 256 else tmpf.field r c) := by
        funext r c
        by_cases hex : ∃ i, i < n ∧ (x + (dirDelta d).1 + i * (dirDelta d).1,
              y + (dirDelta d).2 + i * (dirDelta d).2) = (((c : Nat) : Int), ((r : Nat) : Int))
        · rw [if_pos hex]
          obtain ⟨i, hi, he⟩ := hex
          rw [if_pos]
          refine ⟨i + 1, by omega, ?_⟩
          rw [← he]
          push_cast
          congr 1 <;> ring
        · rw [if_neg hex]
          by_cases h00 : r = r0 ∧ c = c0
          · rw [if_pos]
            · simp [setCell, h00]
            · refine ⟨0, by omega, ?_⟩
              simp [h00, hc0, hr0]
          · have hno : ¬ ∃ i, i < n + 1 ∧ (x + i * (dirDelta d).1, y + i * (dirDelta d).2)
                = (((c : Nat) : Int), ((r : Nat) : Int)) := by
              rintro ⟨i, hi, he⟩
              cases i with
              | zero =>
                apply h00
                simp only [Nat.cast_zero, zero_mul, add_zero, Prod.mk.injEq] at he
                constructor <;> apply Fin.ext <;> omega
              | succ j =>
                apply hex
                refine ⟨j, by omega, ?_⟩
                rw [← he]
                push_cast
                congr 1 <;> ring
            rw [if_neg hno]
            simp [setCell, h00]
      simp only [hf]
    · intro i hi
      have := h (i + 1) (by omega)
      have e1 : x + (dirDelta d).1 + (i : Int) * (dirDelta d).1
          = x + ((i + 1 : Nat) : Int) * (dirDelta d).1 := by push_cast; ring
      have e2 : y + (dirDelta d).2 + (i : Int) * (dirDelta d).2
          = y + ((i + 1 : Nat) : Int) * (dirDelta d).2 := by push_cast; ring
      rw [e1, e2]
      exact this

/-- The loop returns early as soon as some cell of the run is outside the grid
or already holds a ship character. -/
theorem set_ship_loop_none (g : battlefield) (si d : Nat) :
    ∀ (n : Nat) (x y : Int) (tmpf : battlefield),
      (∃ i, i < n ∧ (¬ inGrid (x + i * (dirDelta d).1, y + i * (dirDelta d).2) ∨
        occupiedAt g (x + i * (dirDelta d).1, y + i * (dirDelta d).2))) →
      set_ship_loop g si d n x y tmpf = none := by
  intro n
  induction n with
  | zero =>
    rintro x y tmpf ⟨i, hi, _⟩
    omega
  | succ n ih =>
    rintro x y tmpf ⟨i, hi, hbad⟩
    by_cases hin : inGrid (x, y)
    · obtain ⟨r0, c0, hc0, hr0⟩ := inGrid_fin hin
      simp only at hc0 hr0
      rw [set_ship_loop_in g si d n x y tmpf r0 c0 hc0 hr0]
      cases hd : isdigit (g.field r0 c0)
      · simp only [Bool.false_eq_true, if_false]
        apply ih
        cases i with
        | zero =>
          exfalso
          simp only [Nat.cast_zero, zero_mul, add_zero] at hbad
          rcases hbad with hb | ⟨r, c, hc, hr, hdig⟩
          · exact hb hin
          · simp only at hc hr
            have e1 : r = r0 := by apply Fin.ext; omega
            have e2 : c = c0 := by apply Fin.ext; omega
            rw [e1, e2, hd] at hdig
            exact Bool.false_ne_true hdig
        | succ j =>
          refine ⟨j, by omega, ?_⟩
          have e1 : x + (dirDelta d).1 + (j : Int) * (dirDelta d).1
              = x + ((j + 1 : Nat) : Int) * (dirDelta d).1 := by push_cast; ring
          have e2 : y + (dirDelta d).2 + (j : Int) * (dirDelta d).2
              = y + ((j + 1 : Nat) : Int) * (dirDelta d).2 := by push_cast; ring
          rw [e1, e2]
          exact hbad
      · simp
    · exact set_ship_loop_out g si d n x y tmpf hin

theorem runCell_inj (anchor : coords) (o : Orientation) (i j : Nat)
    (h : runCell anchor o.delta i = runCell anchor o.delta j) : i = j := by
  cases o <;> simp [runCell, Orientation.delta] at h <;> omega

/-! ## Claims on `set_ship` -/

/-- C1: for a ship index `si`, an anchor and one of the four orientations such
that every cell of the run of `size` cells lies in the 9x9 grid and none of
them holds a ship character, `set_ship` returns TRUE; afterwards exactly the
cells of the run (which are `size` distinct cells) hold `'1' + si`, every other
cell is as before, and the hit counter, the owner name, the key and the other
parts of the session are unchanged. -/
theorem set_ship_places (sh : Fin 3 → ship) (g : game_session) (si : Fin 3) (o : Orientation)
    (hdir : (sh si).direction = o.code)
    (hin : ∀ i, i < (sh si).size → inGrid (runCell (sh si).position o.delta i))
    (hfree : ∀ i, i < (sh si).size →
      ¬ occupiedAt g.field_a (runCell (sh si).position o.delta i)) :
    (set_ship sh g si).1 = true ∧
    (∀ r c, (set_ship sh g si).2.field_a.field r c =
      if onRun (sh si).position o.delta (sh si).size r c then chOne + si.val
      else g.field_a.field r c) ∧
    (∀ i j, i < (sh si).size → j < (sh si).size →
      runCell (sh si).position o.delta i = runCell (sh si).position o.delta j → i = j) ∧
    (set_ship sh g si).2.field_a.hits = g.field_a.hits ∧
    (set_ship sh g si).2.field_a.player_name = g.field_a.player_name ∧
    (set_ship sh g si).2.field_a.key = g.field_a.key ∧
    (set_ship sh g si).2.field_b = g.field_b := by
  have hloop := set_ship_loop_some g.field_a si.val (sh si).direction (sh si).size
    ((sh si).position.x : Int) ((sh si).position.y : Int) g.field_a (by
      intro i hi
      rw [hdir, dirDelta_code]
      exact ⟨hin i hi, hfree i hi⟩)
  have hv : (chOne + si.val) % 256 = chOne + si.val := by
    have := si.isLt
    simp only [chOne]
    omega
  have hd : dirDelta (sh si).direction = o.delta := by rw [hdir, dirDelta_code]
  rw [hd, hv] at hloop
  have hs : set_ship sh g si = (true, { g with field_a := { g.field_a with field := (fun r c =>
      if ∃ i, i < (sh si).size ∧
          (((sh si).position.x : Int) + i * o.delta.1, ((sh si).position.y : Int) + i * o.delta.2)
            = (((c : Nat) : Int), ((r : Nat) : Int))
      then chOne + si.val else (g.field_a.field r c)) } }) := by
    simp only [set_ship, hloop]
  rw [hs]
  refine ⟨rfl, ?_, ?_, rfl, rfl, rfl, rfl⟩
  · intro r c
    simp only [onRun, runCell]
  · intro i j _ _ h
    exact runCell_inj _ o i j h

/-- Witness for C1: ship 1 (size 4) placed diagonally down from (2,3) on the
empty field. -/
theorem set_ship_places_witness :
    (set_ship (place ships 1 SHIP_DIRECTION_DD ⟨2, 3⟩) fresh_session 1).1 = true ∧
    (set_ship (place ships 1 SHIP_DIRECTION_DD ⟨2, 3⟩) fresh_session 1).2.field_a.field 5 4
      = 50 := by
  have h := set_ship_places (place ships 1 SHIP_DIRECTION_DD ⟨2, 3⟩) fresh_session 1
    Orientation.diagonalDown (by decide) (by decide) (by decide)
  refine ⟨h.1, ?_⟩
  rw [h.2.1]
  decide

/-- C2: for every session, ship index, anchor and direction byte, `set_ship`
returns FALSE exactly when some cell of the ship's run is outside `0..8` on an
axis or already holds a ship character, and whenever it returns FALSE the
session (hence the board) is exactly the one before the call. -/
theorem set_ship_rejects (sh : Fin 3 → ship) (g : game_session) (si : Fin 3) :
    ((set_ship sh g si).1 = false ↔
      ∃ i, i < (sh si).size ∧
        (¬ inGrid (runCell (sh si).position (dirDelta (sh si).direction) i) ∨
          occupiedAt g.field_a (runCell (sh si).position (dirDelta (sh si).direction) i))) ∧
    ((set_ship sh g si).1 = false → (set_ship sh g si).2 = g) := by
  by_cases hbad : ∃ i, i < (sh si).size ∧
      (¬ inGrid (runCell (sh si).position (dirDelta (sh si).direction) i) ∨
        occupiedAt g.field_a (runCell (sh si).position (dirDelta (sh si).direction) i))
  · have hloop := set_ship_loop_none g.field_a si.val (sh si).direction (sh si).size
      ((sh si).position.x : Int) ((sh si).position.y : Int) g.field_a hbad
    have hs : set_ship sh g si = (false, g) := by
      simp only [set_ship, hloop]
    rw [hs]
    exact ⟨⟨fun _ => hbad, fun _ => rfl⟩, fun _ => rfl⟩
  · have hloop := set_ship_loop_some g.field_a si.val (sh si).direction (sh si).size
      ((sh si).position.x : Int) ((sh si).position.y : Int) g.field_a (by
        intro i hi
        constructor
        · by_contra hc
          exact hbad ⟨i, hi, Or.inl hc⟩
        · intro hc
          exact hbad ⟨i, hi, Or.inr hc⟩)
    have hs : (set_ship sh g si).1 = true := by
      simp only [set_ship, hloop]
    rw [hs]
    exact ⟨⟨fun h => absurd h (by decide), fun h => absurd h hbad⟩, fun h => absurd h (by decide)⟩

/-- Instance of C2: after ship 0 lies on (0,0),(1,0), placing ship 1
horizontally from (1,0) is rejected and leaves the session as it was. -/
theorem set_ship_rejects_witness :
    (set_ship (place ships 1 SHIP_DIRECTION_H ⟨1, 0⟩)
      (set_ship (place ships 0 SHIP_DIRECTION_H ⟨0, 0⟩) fresh_session 0).2 1)
      = (false, (set_ship (place ships 0 SHIP_DIRECTION_H ⟨0, 0⟩) fresh_session 0).2) := by
  have h := set_ship_rejects (place ships 1 SHIP_DIRECTION_H ⟨1, 0⟩)
    (set_ship (place ships 0 SHIP_DIRECTION_H ⟨0, 0⟩) fresh_session 0).2 1
  have h1 : (set_ship (place ships 1 SHIP_DIRECTION_H ⟨1, 0⟩)
      (set_ship (place ships 0 SHIP_DIRECTION_H ⟨0, 0⟩) fresh_session 0).2 1).1 = false :=
    h.1.2 ⟨0, by decide, Or.inr (by decide)⟩
  exact Prod.ext h1 (h.2 h1)

/-! ## Claims on `attack` -/

theorem attack_in (b : battlefield) (msg : net_msg) (r c : Fin 9)
    (hx : msg.point.x = c.val) (hy : msg.point.y = r.val) :
    attack b msg =
      if isdigit (b.field r c) = true then
        some (true, { b with field := setCell b.field r c chHit, hits := (b.hits + 1) % 256 })
      else some (false, { b with field := setCell b.field r c chMiss }) := by
  have h1 : ¬ (((msg.point.x : Nat) : Int) ≥ (BFIELD_SIZEX : Int) ∨
      ((msg.point.y : Nat) : Int) ≥ (BFIELD_SIZEY : Int) ∨
      ((msg.point.x : Nat) : Int) < 0 ∨ ((msg.point.y : Nat) : Int) < 0) := by
    have := r.isLt
    have := c.isLt
    simp only [BFIELD_SIZEX, BFIELD_SIZEY]
    omega
  have hr : (⟨((msg.point.y : Nat) : Int).toNat, by have := r.isLt; omega⟩ : Fin 9) = r := by
    apply Fin.ext; simp only; omega
  have hc : (⟨((msg.point.x : Nat) : Int).toNat, by have := c.isLt; omega⟩ : Fin 9) = c := by
    apply Fin.ext; simp only; omega
  simp only [attack]
  rw [dif_neg h1]
  simp only [hr, hc]

theorem hmac_cell_eq (f : battlefield) (i x : Fin 9) (s : occ_state) :
    hmac_cell f i x s =
      { data := s.data.set s.p (occ_byte f i x), p := s.p + 1,
        pieces := s.pieces + occ_byte f i x } := by
  unfold hmac_cell occ_byte occupied
  by_cases h : f.field i x = chHit ∨ isdigit (f.field i x) = true
  · simp [h]
  · simp [h]

/-- Writing one cell at the pointer: the buffer grows its written prefix. -/
theorem hmac_cell_append (f : battlefield) (i x : Fin 9) (pre : List Nat) (a : Nat)
    (rest : List Nat) (k : Nat) :
    hmac_cell f i x { data := pre ++ a :: rest, p := pre.length, pieces := k } =
      { data := (pre ++ [occ_byte f i x]) ++ rest, p := (pre ++ [occ_byte f i x]).length,
        pieces := k + occ_byte f i x } := by
  rw [hmac_cell_eq]
  simp [List.set_append_right]

/-- The inner loop over the columns `cs` appends the bytes of these cells. -/
theorem hmac_row_fold (f : battlefield) (i : Fin 9) :
    ∀ (cs : List (Fin 9)) (pre rest : List Nat) (k : Nat), cs.length ≤ rest.length →
      cs.foldl (fun s x => hmac_cell f i x s)
          { data := pre ++ rest, p := pre.length, pieces := k } =
        { data := (pre ++ cs.map (occ_byte f i)) ++ rest.drop cs.length,
          p := (pre ++ cs.map (occ_byte f i)).length,
          pieces := k + (cs.map (occ_byte f i)).sum } := by
  intro cs
  induction cs with
  | nil => intro pre rest k _; simp
  | cons x cs ih =>
    intro pre rest k hlen
    cases rest with
    | nil => simp at hlen
    | cons a rest =>
      simp only [List.foldl_cons]
      rw [hmac_cell_append, ih]
      · simp [Nat.add_assoc]
      · simpa using hlen

/-- The outer loop over the rows `rs` appends the bytes of these rows. -/
theorem hmac_rows_fold (f : battlefield) :
    ∀ (rs : List (Fin 9)) (pre rest : List Nat) (k : Nat), rs.length * 9 ≤ rest.length →
      rs.foldl (fun s i => (List.finRange 9).foldl (fun s x => hmac_cell f i x s) s)
          { data := pre ++ rest, p := pre.length, pieces := k } =
        { data := (pre ++ rs.flatMap (fun i => (List.finRange 9).map (occ_byte f i)))
            ++ rest.drop (rs.length * 9),
          p := (pre ++ rs.flatMap (fun i => (List.finRange 9).map (occ_byte f i))).length,
          pieces := k + (rs.flatMap (fun i => (List.finRange 9).map (occ_byte f i))).sum } := by
  intro rs
  induction rs with
  | nil => intro pre rest k _; simp
  | cons i rs ih =>
    intro pre rest k hlen
    simp only [List.foldl_cons]
    have h9 : (List.finRange 9).length = 9 := List.length_finRange 9
    simp only [List.length_cons] at hlen
    rw [hmac_row_fold f i (List.finRange 9) pre rest k (by rw [h9]; omega), ih]
    · simp only [h9, List.flatMap_cons, List.drop_drop, List.append_assoc, List.sum_append,
        Nat.add_assoc]
      have e : rs.length * 9 + 9 = (i :: rs).length * 9 := by
        simp only [List.length_cons]; ring
      rw [Nat.add_comm 9, e]
    · rw [List.length_drop, h9]; omega

/-- Refinement of the occupancy loop: the buffer `data` ends up as the
row-major occupancy vector, and `pieces` counts its ones. -/
theorem hmac_data_eq (f : battlefield) :
    (hmac_data f).data = occupancy_vector f ∧
    (hmac_data f).pieces = (occupancy_vector f).sum := by
  have h := hmac_rows_fold f (List.finRange 9) [] (List.replicate 81 0) 0 (by simp)
  simp only [List.nil_append, List.length_nil] at h
  unfold hmac_data
  simp only [BFIELD_SIZEX, BFIELD_SIZEY]
  rw [h]
  simp only [List.length_finRange, List.drop_replicate, Nat.zero_add]
  exact ⟨by simp [occupancy_vector]; rfl, rfl⟩

theorem occupancy_vector_length (f : battlefield) : (occupancy_vector f).length = 81 := by
  simp [occupancy_vector, List.length_flatMap, Function.comp_def]

/-- One step of the pad loop on a buffer whose first `n` bytes are done. -/
theorem set_xor_step (l : List Nat) (n : Nat) (c : Nat) (h : n < l.length) :
    ((l.take n).map (fun k => k ^^^ c) ++ l.drop n).set n
        (((l.take n).map (fun k => k ^^^ c) ++ l.drop n).getD n 0 ^^^ c)
      = (l.take (n + 1)).map (fun k => k ^^^ c) ++ l.drop (n + 1) := by
  have hlen : ((l.take n).map (fun k => k ^^^ c)).length = n := by
    simp [List.length_take]; omega
  rw [List.drop_eq_getElem_cons h]
  rw [List.set_append_right _ _ (by omega), hlen, Nat.sub_self]
  rw [List.getD_eq_getElem?_getD, List.getElem?_append_right (by omega), hlen, Nat.sub_self]
  rw [List.take_succ, List.getElem?_eq_getElem h]
  simp only [List.getElem?_cons_zero, Option.getD_some, List.set_cons_zero, Option.toList_some,
    List.map_append, List.map_cons, List.map_nil, List.append_assoc, List.singleton_append]

/-- The pad loop run for `n` rounds XORs the first `n` bytes of both buffers. -/
theorem hmac_pads_fold (a b : List Nat) :
    ∀ n, n ≤ a.length → n ≤ b.length →
      (List.range n).foldl
          (fun s i => (s.1.set i (s.1.getD i 0 ^^^ 0x36), s.2.set i (s.2.getD i 0 ^^^ 0x5c)))
          (a, b) =
        ((a.take n).map (fun k => k ^^^ 0x36) ++ a.drop n,
         (b.take n).map (fun k => k ^^^ 0x5c) ++ b.drop n) := by
  intro n
  induction n with
  | zero => intro _ _; simp
  | succ n ih =>
    intro ha hb
    rw [List.range_succ, List.foldl_append, ih (by omega) (by omega)]
    simp only [List.foldl_cons, List.foldl_nil]
    rw [set_xor_step a n 0x36 (by omega), set_xor_step b n 0x5c (by omega)]

/-- Refinement of `hmac_battlefield`: with a 20 byte digest function the code
computes HMAC-SHA1 of the occupancy vector under the 64 byte key. -/
theorem hmac_battlefield_eq (sha1 : List Nat → List Nat)
    (hlen : ∀ m, (sha1 m).length = SHA_DIGEST_LENGTH) (f : battlefield) :
    hmac_battlefield sha1 f = HMAC_SHA1 sha1 (List.ofFn f.key) (occupancy_vector f) := by
  have hk : (List.ofFn f.key).length = 64 := List.length_ofFn _
  have hcopy : bcopy (List.ofFn f.key) (List.replicate 65 0) 64 = List.ofFn f.key ++ [0] := by
    unfold bcopy
    rw [List.take_of_length_le (by omega)]
    simp
  have hpads : hmac_pads (List.ofFn f.key ++ [0]) (List.ofFn f.key ++ [0]) =
      ((List.ofFn f.key).map (fun k => k ^^^ 0x36) ++ [0],
       (List.ofFn f.key).map (fun k => k ^^^ 0x5c) ++ [0]) := by
    unfold hmac_pads
    rw [hmac_pads_fold _ _ 64 (by simp) (by simp)]
    rw [List.take_left' hk, List.drop_left' hk]
  have hblock : hmac_key_block sha1 (List.ofFn f.key) = List.ofFn f.key := by
    unfold hmac_key_block
    simp [hk]
  unfold hmac_battlefield HMAC_SHA1
  simp only [hcopy, hpads, hblock, SHA1_Update, SHA1_Init, SHA1_Final, List.nil_append,
    (hmac_data_eq f).1]
  rw [List.take_left' (by simp), List.take_left' (by simp)]
  rw [List.take_of_length_le (by rw [hlen]),
    List.take_of_length_le (by rw [occupancy_vector_length]; decide)]

/-- The digest depends on the field only through the occupancy vector and the key. -/
theorem hmac_battlefield_congr (sha1 : List Nat → List Nat) (f1 f2 : battlefield)
    (hkey : f1.key = f2.key) (hocc : occupancy_vector f1 = occupancy_vector f2) :
    hmac_battlefield sha1 f1 = hmac_battlefield sha1 f2 := by
  unfold hmac_battlefield
  simp only [(hmac_data_eq f1).1, (hmac_data_eq f2).1, hkey, hocc]

theorem occupancy_vector_congr (f1 f2 : battlefield)
    (h : ∀ r c, occupied (f1.field r c) = occupied (f2.field r c)) :
    occupancy_vector f1 = occupancy_vector f2 := by
  unfold occupancy_vector
  simp only [h]

theorem flatMap_inj_of_length {α β : Type} (g1 g2 : α → List β)
    (hlen : ∀ a, (g1 a).length = (g2 a).length) :
    ∀ l : List α, l.flatMap g1 = l.flatMap g2 → ∀ a ∈ l, g1 a = g2 a := by
  intro l
  induction l with
  | nil => intro _ a ha; simp at ha
  | cons x l ih =>
    intro h a ha
    simp only [List.flatMap_cons] at h
    have h2 := List.append_inj h (hlen x)
    rcases List.mem_cons.mp ha with rfl | hmem
    · exact h2.1
    · exact ih h2.2 a hmem

/-- Two fields have the same occupancy vector exactly when they agree cell by
cell on "ship-occupied". -/
theorem occupancy_vector_eq_iff (f1 f2 : battlefield) :
    occupancy_vector f1 = occupancy_vector f2 ↔
      ∀ r c, occupied (f1.field r c) = occupied (f2.field r c) := by
  constructor
  · intro h r c
    have hrow := flatMap_inj_of_length
      (fun r => (List.finRange 9).map fun c => if occupied (f1.field r c) = true then 1 else 0)
      (fun r => (List.finRange 9).map fun c => if occupied (f2.field r c) = true then 1 else 0)
      (by intro a; simp) (List.finRange 9) h r (List.mem_finRange r)
    have hcell := (List.map_inj_left.mp hrow) c (List.mem_finRange c)
    cases h1 : occupied (f1.field r c) <;> cases h2 : occupied (f2.field r c) <;>
      simp [h1, h2] at hcell ⊢
  · exact occupancy_vector_congr f1 f2

/-! ## Claims on repeated attacks and on the commitment -/

/-- C4, code at the failing input: the first attack on the ship cell (0,0)
returns TRUE and marks it `'X'`; the second attack on the same coordinate
returns FALSE and overwrites the mark with `'x'`, so the hit does not stay a
hit (and the cell leaves the occupancy vector). -/
theorem attack_twice_overwrites_hit :
    (attack (one_ship_field 0) (mk_msg MSG_TYPE_GAME_ATTACK ⟨0, 0⟩)).map
      (fun res => (res.1, res.2.field 0 0, res.2.hits)) = some (true, chHit, 1) ∧
    ((attack (one_ship_field 0) (mk_msg MSG_TYPE_GAME_ATTACK ⟨0, 0⟩)).bind
      (fun res => attack res.2 (mk_msg MSG_TYPE_GAME_ATTACK ⟨0, 0⟩))).map
      (fun res => (res.1, res.2.field 0 0, res.2.hits)) = some (false, chMiss, 1) ∧
    ((attack (one_ship_field 0) (mk_msg MSG_TYPE_GAME_ATTACK ⟨0, 0⟩)).bind
      (fun res => attack res.2 (mk_msg MSG_TYPE_GAME_ATTACK ⟨0, 0⟩))).map
      (fun res => occupied (res.2.field 0 0)) = some false := by
  rw [attack_in (one_ship_field 0) (mk_msg MSG_TYPE_GAME_ATTACK ⟨0, 0⟩) 0 0 rfl rfl]
  have hd : isdigit ((one_ship_field 0).field 0 0) = true := by decide
  simp only [hd, if_true, Option.map_some', Option.some_bind]
  rw [attack_in _ (mk_msg MSG_TYPE_GAME_ATTACK ⟨0, 0⟩) 0 0 rfl rfl]
  refine ⟨by decide, ?_, ?_⟩ <;> decide

/-- An attack on a cell that holds water or an intact ship segment keeps the
"ship-occupied" status of every cell, touches no other cell and keeps the key. -/
theorem attack_keeps_occupancy (b : battlefield) (msg : net_msg) (r c : Fin 9)
    (hx : msg.point.x = c.val) (hy : msg.point.y = r.val)
    (hcell : b.field r c = chWater ∨ isdigit (b.field r c) = true) :
    ∃ res, attack b msg = some res ∧
      (∀ r1 c1, occupied (res.2.field r1 c1) = occupied (b.field r1 c1)) ∧
      (∀ r1 c1, ¬ (r1 = r ∧ c1 = c) → res.2.field r1 c1 = b.field r1 c1) ∧
      res.2.key = b.key := by
  rw [attack_in b msg r c hx hy]
  cases hd : isdigit (b.field r c)
  · have hw : b.field r c = chWater := by
      rcases hcell with h | h
      · exact h
      · rw [hd] at h; exact absurd h (by decide)
    refine ⟨(false, { b with field := setCell b.field r c chMiss }), by simp, ?_, ?_, rfl⟩
    · intro r1 c1
      by_cases he : r1 = r ∧ c1 = c
      · simp only [setCell, he, and_self, if_true, hw]
        decide
      · simp [setCell, he]
    · intro r1 c1 he
      simp [setCell, he]
  · refine ⟨(true, { b with field := setCell b.field r c chHit, hits := (b.hits + 1) % 256 }),
      by simp, ?_, ?_, rfl⟩
    · intro r1 c1
      by_cases he : r1 = r ∧ c1 = c
      · simp only [setCell, he, and_self, if_true]
        simp [occupied, hd]
      · simp [setCell, he]
    · intro r1 c1 he
      simp [setCell, he]

/-- Attacks at pairwise distinct in-bounds coordinates, each on a cell that
still holds water or an intact segment, all return and keep the occupancy. -/
theorem attacks_keep_occupancy :
    ∀ (ms : List net_msg) (b : battlefield),
      (∀ m ∈ ms, m.point.x < 9 ∧ m.point.y < 9) →
      (ms.map (fun m => m.point)).Nodup →
      (∀ m ∈ ms, ∀ r c : Fin 9, m.point.x = c.val → m.point.y = r.val →
        b.field r c = chWater ∨ isdigit (b.field r c) = true) →
      ∃ b1, attacks b ms = some b1 ∧
        (∀ r c, occupied (b1.field r c) = occupied (b.field r c)) ∧ b1.key = b.key := by
  intro ms
  induction ms with
  | nil =>
    intro b _ _ _
    exact ⟨b, rfl, fun _ _ => rfl, rfl⟩
  | cons m ms ih =>
    intro b hin hnd hcells
    have hm := hin m (List.mem_cons_self m ms)
    obtain ⟨res, hres, hocc, hframe, hkey⟩ :=
      attack_keeps_occupancy b m ⟨m.point.y, hm.2⟩ ⟨m.point.x, hm.1⟩ rfl rfl
        (hcells m (List.mem_cons_self m ms) _ _ rfl rfl)
    simp only [List.map_cons, List.nodup_cons] at hnd
    obtain ⟨b1, hb1, hocc1, hkey1⟩ := ih res.2
      (fun m1 h1 => hin m1 (List.mem_cons_of_mem m h1)) hnd.2
      (by
        intro m1 h1 r c hx hy
        have hne : ¬ (r = ⟨m.point.y, hm.2⟩ ∧ c = ⟨m.point.x, hm.1⟩) := by
          rintro ⟨e1, e2⟩
          apply hnd.1
          have hp : m1.point = m.point := by
            cases hp1 : m1.point with
            | mk x1 y1 =>
              cases hp2 : m.point with
              | mk x2 y2 =>
                rw [hp1] at hx hy
                have e1v := congrArg Fin.val e1
                have e2v := congrArg Fin.val e2
                simp only [hp2] at e1v e2v
                simp only at hx hy
                rw [coords.mk.injEq]
                omega
          rw [← hp]
          exact List.mem_map_of_mem (fun m => m.point) h1
        rw [hframe r c hne]
        exact hcells m1 (List.mem_cons_of_mem m h1) r c hx hy)
    refine ⟨b1, ?_, ?_, ?_⟩
    · simp only [attacks, hres, hb1]
    · intro r c
      rw [hocc1, hocc]
    · rw [hkey1, hkey]

/-- C5: on a field that holds only water and ship segments, every sequence of
attacks at pairwise distinct in-bounds coordinates returns, and the digest
`hmac_battlefield` computes from the field afterwards (same key) equals the
digest computed before the attacks; so the hash check of a receiver that holds
the field after the attacks (with its key) and has stored the digest committed
from the field before them does not fail. -/
theorem commitment_survives_attacks (sha1 : List Nat → List Nat) (b : battlefield)
    (ms : List net_msg)
    (hboard : ∀ r c, b.field r c = chWater ∨ isdigit (b.field r c) = true)
    (hin : ∀ m ∈ ms, m.point.x < 9 ∧ m.point.y < 9)
    (hdistinct : (ms.map (fun m => m.point)).Nodup) :
    ∃ b1, attacks b ms = some b1 ∧
      b1.key = b.key ∧
      hmac_battlefield sha1 b1 = hmac_battlefield sha1 b ∧
      ∀ g : game_session, g.field_b = b1 → g.opponent_hash = hmac_battlefield sha1 b →
        finish_hash_check_failed sha1 g = false := by
  obtain ⟨b1, hb1, hocc, hkey⟩ := attacks_keep_occupancy ms b hin hdistinct
    (fun m _ r c _ _ => hboard r c)
  have hh : hmac_battlefield sha1 b1 = hmac_battlefield sha1 b :=
    hmac_battlefield_congr sha1 b1 b hkey (occupancy_vector_congr b1 b hocc)
  refine ⟨b1, hb1, hkey, hh, ?_⟩
  intro g hg hoh
  simp [finish_hash_check_failed, memcmp_ne, hg, hoh, hh]

/-- Witness for C5: the ship cell (0,0) and the water cell (4,2) are attacked. -/
theorem commitment_survives_attacks_witness :
    ∃ b1, attacks (one_ship_field 0)
        [mk_msg MSG_TYPE_GAME_ATTACK ⟨0, 0⟩, mk_msg MSG_TYPE_GAME_ATTACK ⟨4, 2⟩] = some b1 ∧
      hmac_battlefield toy_sha1 b1 = hmac_battlefield toy_sha1 (one_ship_field 0) := by
  obtain ⟨b1, h1, _, h2, _⟩ := commitment_survives_attacks toy_sha1 (one_ship_field 0)
    [mk_msg MSG_TYPE_GAME_ATTACK ⟨0, 0⟩, mk_msg MSG_TYPE_GAME_ATTACK ⟨4, 2⟩]
    (by decide) (by decide) (by decide)
  exact ⟨b1, h1, h2⟩

/-! ## Lemmas on the merge of `finish` -/

/-- One step of the merge keeps the invariant "every cell is still the local
one or already the merged one", settles its own cell and keeps settled cells. -/
theorem finish_merge_cell_step (fb revealed : Fin 9 → Fin 9 → Nat) (r c : Fin 9)
    (f : Fin 9 → Fin 9 → Nat)
    (hinv : ∀ r1 c1, f r1 c1 = fb r1 c1 ∨ f r1 c1 = merged_cell fb revealed r1 c1) :
    (∀ r1 c1, finish_merge_cell revealed r c f r1 c1 = fb r1 c1 ∨
      finish_merge_cell revealed r c f r1 c1 = merged_cell fb revealed r1 c1) ∧
    finish_merge_cell revealed r c f r c = merged_cell fb revealed r c ∧
    (∀ r1 c1, f r1 c1 = merged_cell fb revealed r1 c1 →
      finish_merge_cell revealed r c f r1 c1 = merged_cell fb revealed r1 c1) := by
  have hown : finish_merge_cell revealed r c f r c = merged_cell fb revealed r c := by
    unfold finish_merge_cell
    by_cases hc : f r c ≠ chHit ∧ f r c ≠ chMiss
    · rw [if_pos hc]
      simp only [setCell, and_self, if_true]
      rcases hinv r c with h | h
      · rw [h] at hc
        simp only [merged_cell, if_pos hc]
      · by_cases hb : fb r c ≠ chHit ∧ fb r c ≠ chMiss
        · simp only [merged_cell, if_pos hb]
        · simp only [merged_cell, if_neg hb] at h
          rw [h] at hc
          exact absurd hc hb
    · rw [if_neg hc]
      rcases hinv r c with h | h
      · rw [h] at hc
        simp only [merged_cell, if_neg hc, h]
      · exact h
  have hother : ∀ r1 c1, ¬ (r1 = r ∧ c1 = c) →
      finish_merge_cell revealed r c f r1 c1 = f r1 c1 := by
    intro r1 c1 hne
    unfold finish_merge_cell
    by_cases hc : f r c ≠ chHit ∧ f r c ≠ chMiss
    · rw [if_pos hc]; simp [setCell, hne]
    · rw [if_neg hc]
  refine ⟨?_, hown, ?_⟩
  · intro r1 c1
    by_cases he : r1 = r ∧ c1 = c
    · right; rw [he.1, he.2]; exact hown
    · rw [hother r1 c1 he]; exact hinv r1 c1
  · intro r1 c1 h
    by_cases he : r1 = r ∧ c1 = c
    · rw [he.1, he.2]; exact hown
    · rw [hother r1 c1 he]; exact h

theorem finish_merge_row (fb revealed : Fin 9 → Fin 9 → Nat) (r : Fin 9) :
    ∀ (cs : List (Fin 9)) (f : Fin 9 → Fin 9 → Nat),
      (∀ r1 c1, f r1 c1 = fb r1 c1 ∨ f r1 c1 = merged_cell fb revealed r1 c1) →
      (∀ r1 c1, cs.foldl (fun f c => finish_merge_cell revealed r c f) f r1 c1 = fb r1 c1 ∨
        cs.foldl (fun f c => finish_merge_cell revealed r c f) f r1 c1
          = merged_cell fb revealed r1 c1) ∧
      (∀ c ∈ cs, cs.foldl (fun f c => finish_merge_cell revealed r c f) f r c
        = merged_cell fb revealed r c) ∧
      (∀ r1 c1, f r1 c1 = merged_cell fb revealed r1 c1 →
        cs.foldl (fun f c => finish_merge_cell revealed r c f) f r1 c1
          = merged_cell fb revealed r1 c1) := by
  intro cs
  induction cs with
  | nil => intro f hinv; exact ⟨hinv, by simp, fun _ _ h => h⟩
  | cons c cs ih =>
    intro f hinv
    obtain ⟨s1, s2, s3⟩ := finish_merge_cell_step fb revealed r c f hinv
    obtain ⟨t1, t2, t3⟩ := ih (finish_merge_cell revealed r c f) s1
    simp only [List.foldl_cons]
    refine ⟨t1, ?_, fun r1 c1 h => t3 r1 c1 (s3 r1 c1 h)⟩
    intro c1 hc1
    rcases List.mem_cons.mp hc1 with rfl | hmem
    · exact t3 r c1 s2
    · exact t2 c1 hmem

theorem finish_merge_rows (fb revealed : Fin 9 → Fin 9 → Nat) :
    ∀ (rs : List (Fin 9)) (f : Fin 9 → Fin 9 → Nat),
      (∀ r1 c1, f r1 c1 = fb r1 c1 ∨ f r1 c1 = merged_cell fb revealed r1 c1) →
      (∀ r1 c1,
        rs.foldl (fun f r => (List.finRange 9).foldl
          (fun f c => finish_merge_cell revealed r c f) f) f r1 c1 = fb r1 c1 ∨
        rs.foldl (fun f r => (List.finRange 9).foldl
          (fun f c => finish_merge_cell revealed r c f) f) f r1 c1
            = merged_cell fb revealed r1 c1) ∧
      (∀ r ∈ rs, ∀ c,
        rs.foldl (fun f r => (List.finRange 9).foldl
          (fun f c => finish_merge_cell revealed r c f) f) f r c
            = merged_cell fb revealed r c) ∧
      (∀ r1 c1, f r1 c1 = merged_cell fb revealed r1 c1 →
        rs.foldl (fun f r => (List.finRange 9).foldl
          (fun f c => finish_merge_cell revealed r c f) f) f r1 c1
            = merged_cell fb revealed r1 c1) := by
  intro rs
  induction rs with
  | nil => intro f hinv; exact ⟨hinv, by simp, fun _ _ h => h⟩
  | cons r rs ih =>
    intro f hinv
    obtain ⟨s1, s2, s3⟩ := finish_merge_row fb revealed r (List.finRange 9) f hinv
    obtain ⟨t1, t2, t3⟩ := ih _ s1
    simp only [List.foldl_cons]
    refine ⟨t1, ?_, fun r1 c1 h => t3 r1 c1 (s3 r1 c1 h)⟩
    intro r1 hr1 c
    rcases List.mem_cons.mp hr1 with rfl | hmem
    · exact t3 r1 c (s2 c (List.mem_finRange c))
    · exact t2 r1 hmem c

/-- The merge loops of `finish` leave in every cell the local mark where the
local view holds `'X'` or `'x'`, and the revealed cell elsewhere. -/
theorem finish_merge_field_apply (fb revealed : Fin 9 → Fin 9 → Nat) (r c : Fin 9) :
    finish_merge_field fb revealed r c = merged_cell fb revealed r c :=
  (finish_merge_rows fb revealed (List.finRange 9) fb (fun _ _ => Or.inl rfl)).2.1
    r (List.mem_finRange r) c

theorem toy_sha1_length (m : List Nat) : (toy_sha1 m).length = SHA_DIGEST_LENGTH := by
  simp [toy_sha1]

theorem toy_sha1_inj (a b : List Nat) (h : toy_sha1 a = toy_sha1 b) : a = b := by
  simp only [toy_sha1, List.cons.injEq, and_true] at h
  exact Encodable.encode_injective h

/-- The digest of `hmac_battlefield` written out, for a 20 byte digest function. -/
theorem hmac_battlefield_formula (sha1 : List Nat → List Nat)
    (hlen : ∀ m, (sha1 m).length = SHA_DIGEST_LENGTH) (f : battlefield) :
    hmac_battlefield sha1 f =
      sha1 ((List.ofFn f.key).map (fun k => k ^^^ 0x5c) ++
        sha1 ((List.ofFn f.key).map (fun k => k ^^^ 0x36) ++ occupancy_vector f)) := by
  have hblock : hmac_key_block sha1 (List.ofFn f.key) = List.ofFn f.key := by
    unfold hmac_key_block
    simp
  rw [hmac_battlefield_eq sha1 hlen f]
  unfold HMAC_SHA1
  rw [hblock]

/-- What `finish` does on a GameFinished frame of the right version. -/
theorem finish_on_reveal (sha1 : List Nat → List Nat) (g : game_session) (msg : net_msg)
    (rest : List net_msg) (hv : msg.msg_version = RKUBS_NET_VERSION_N)
    (ht : msg.msg_type = MSG_TYPE_GAME_FINISHED) :
    finish sha1 g (msg :: rest) =
      finish_result.game_over { g with field_b := finish_merge g.field_b msg.field }
        (finish_winner { g with field_b := finish_merge g.field_b msg.field })
        (finish_hash_check_failed sha1 { g with field_b := finish_merge g.field_b msg.field }) := by
  simp [finish, net_read, hv, ht]

/-- With a 20 byte digest function that does not collide on the two inner and
the two outer inputs involved, the comparison against the stored digest of the
field `X` fails exactly when the hashed field `M` differs from `X` in occupancy. -/
theorem hash_check_iff (sha1 : List Nat → List Nat)
    (hlen : ∀ m, (sha1 m).length = SHA_DIGEST_LENGTH) (M X : battlefield) (oh : List Nat)
    (hkey : M.key = X.key)
    (hstored : oh.take SHA_DIGEST_LENGTH = (hmac_battlefield sha1 X).take SHA_DIGEST_LENGTH)
    (hinner :
      sha1 ((List.ofFn X.key).map (fun k => k ^^^ 0x36) ++ occupancy_vector M) =
        sha1 ((List.ofFn X.key).map (fun k => k ^^^ 0x36) ++ occupancy_vector X) →
      (List.ofFn X.key).map (fun k => k ^^^ 0x36) ++ occupancy_vector M =
        (List.ofFn X.key).map (fun k => k ^^^ 0x36) ++ occupancy_vector X)
    (houter :
      sha1 ((List.ofFn X.key).map (fun k => k ^^^ 0x5c) ++
          sha1 ((List.ofFn X.key).map (fun k => k ^^^ 0x36) ++ occupancy_vector M)) =
        sha1 ((List.ofFn X.key).map (fun k => k ^^^ 0x5c) ++
          sha1 ((List.ofFn X.key).map (fun k => k ^^^ 0x36) ++ occupancy_vector X)) →
      (List.ofFn X.key).map (fun k => k ^^^ 0x5c) ++
          sha1 ((List.ofFn X.key).map (fun k => k ^^^ 0x36) ++ occupancy_vector M) =
        (List.ofFn X.key).map (fun k => k ^^^ 0x5c) ++
          sha1 ((List.ofFn X.key).map (fun k => k ^^^ 0x36) ++ occupancy_vector X)) :
    memcmp_ne (hmac_battlefield sha1 M) oh SHA_DIGEST_LENGTH = true ↔
      occupancy_vector M ≠ occupancy_vector X := by
  have hM := hmac_battlefield_formula sha1 hlen M
  have hX := hmac_battlefield_formula sha1 hlen X
  rw [hkey] at hM
  have tM : (hmac_battlefield sha1 M).take SHA_DIGEST_LENGTH = hmac_battlefield sha1 M :=
    List.take_of_length_le (by rw [hM, hlen])
  have tX : (hmac_battlefield sha1 X).take SHA_DIGEST_LENGTH = hmac_battlefield sha1 X :=
    List.take_of_length_le (by rw [hX, hlen])
  unfold memcmp_ne
  rw [hstored, tM, tX, decide_eq_true_iff]
  constructor
  · intro hne hocc
    exact hne (hmac_battlefield_congr sha1 M X hkey hocc)
  · intro hne heq
    apply hne
    rw [hM, hX] at heq
    have h1 := List.append_cancel_left (houter heq)
    exact List.append_cancel_left (hinner h1)

/-! ## Claims on the hash check of `finish` -/

/-- C6, the claim as stated fails: a player commits to a field with a ship
segment at (0,0) and reveals, with the same key, a field of water only, whose
occupancy differs at (0,0); the receiver's local view marks (0,0) as hit.  The
merge keeps the local `'X'`, the hashed field has the committed occupancy, and
for every digest function the hash check of `finish` passes (no warning). -/
theorem finish_check_passes_on_changed_board :
    occupancy_vector water_field ≠ occupancy_vector (one_ship_field 0) ∧
    water_field.key = (one_ship_field 0).key ∧
    ∀ sha1 : List Nat → List Nat,
      ∃ g1 w, finish sha1 (receiver_after_ready sha1 (one_ship_field 0) hit_view)
          [reveal_msg water_field] = finish_result.game_over g1 w false := by
  refine ⟨?_, rfl, ?_⟩
  · intro h
    have h1 := (occupancy_vector_eq_iff water_field (one_ship_field 0)).mp h 0 0
    exact absurd h1 (by decide)
  · intro sha1
    rw [finish_on_reveal sha1 _ (reveal_msg water_field) [] rfl rfl]
    have hocc : occupancy_vector
        (finish_merge (receiver_after_ready sha1 (one_ship_field 0) hit_view).field_b
          (reveal_msg water_field).field) = occupancy_vector (one_ship_field 0) := by
      apply occupancy_vector_congr
      intro r c
      have hfb : (receiver_after_ready sha1 (one_ship_field 0) hit_view).field_b = hit_view :=
        rfl
      have hrv : (reveal_msg water_field).field = water_field := rfl
      simp only [finish_merge, finish_merge_field_apply, hfb, hrv]
      revert r c
      decide
    have hh := hmac_battlefield_congr sha1
      (finish_merge (receiver_after_ready sha1 (one_ship_field 0) hit_view).field_b
        (reveal_msg water_field).field) (one_ship_field 0) rfl hocc
    have hflag : finish_hash_check_failed sha1
        { receiver_after_ready sha1 (one_ship_field 0) hit_view with
          field_b := finish_merge (receiver_after_ready sha1 (one_ship_field 0) hit_view).field_b
            (reveal_msg water_field).field } = false := by
      simp only [finish_hash_check_failed, hh]
      simp [memcmp_ne, receiver_after_ready, game_store_ready, game_ready_msg, game_commit,
        memcpy, session_of, mk_msg, List.take_take]
    rw [hflag]
    exact ⟨_, _, rfl⟩

/-- C6 (amended): a player has committed to the field `X` (the receiver stored
the first 20 bytes of its digest) and reveals a field with the same key in a
GameFinished frame.  `finish` hashes the merged view: the receiver's local
mark where the local view holds `'X'` or `'x'`, the revealed cell elsewhere.
With a 20 byte digest function that does not collide on the inputs involved,
the cheating warning is emitted exactly when that merged view differs from `X`
in the occupancy of some cell; in particular it is emitted whenever the
revealed field differs from `X` in occupancy at a cell that the local view does
not mark `'X'` or `'x'`. -/
theorem finish_check_detects (sha1 : List Nat → List Nat) (g : game_session) (X : battlefield)
    (msg : net_msg) (rest : List net_msg)
    (hlen : ∀ m, (sha1 m).length = SHA_DIGEST_LENGTH)
    (hv : msg.msg_version = RKUBS_NET_VERSION_N)
    (ht : msg.msg_type = MSG_TYPE_GAME_FINISHED)
    (hkey : msg.field.key = X.key)
    (hstored : g.opponent_hash.take SHA_DIGEST_LENGTH
      = (hmac_battlefield sha1 X).take SHA_DIGEST_LENGTH)
    (hinner :
      sha1 ((List.ofFn X.key).map (fun k => k ^^^ 0x36) ++
          occupancy_vector (finish_merge g.field_b msg.field)) =
        sha1 ((List.ofFn X.key).map (fun k => k ^^^ 0x36) ++ occupancy_vector X) →
      (List.ofFn X.key).map (fun k => k ^^^ 0x36) ++
          occupancy_vector (finish_merge g.field_b msg.field) =
        (List.ofFn X.key).map (fun k => k ^^^ 0x36) ++ occupancy_vector X)
    (houter :
      sha1 ((List.ofFn X.key).map (fun k => k ^^^ 0x5c) ++
          sha1 ((List.ofFn X.key).map (fun k => k ^^^ 0x36) ++
            occupancy_vector (finish_merge g.field_b msg.field))) =
        sha1 ((List.ofFn X.key).map (fun k => k ^^^ 0x5c) ++
          sha1 ((List.ofFn X.key).map (fun k => k ^^^ 0x36) ++ occupancy_vector X)) →
      (List.ofFn X.key).map (fun k => k ^^^ 0x5c) ++
          sha1 ((List.ofFn X.key).map (fun k => k ^^^ 0x36) ++
            occupancy_vector (finish_merge g.field_b msg.field)) =
        (List.ofFn X.key).map (fun k => k ^^^ 0x5c) ++
          sha1 ((List.ofFn X.key).map (fun k => k ^^^ 0x36) ++ occupancy_vector X)) :
    ∃ g1 w warn, finish sha1 g (msg :: rest) = finish_result.game_over g1 w warn ∧
      (∀ r c, g1.field_b.field r c = merged_cell g.field_b.field msg.field.field r c) ∧
      (warn = true ↔
        ∃ r c, occupied (merged_cell g.field_b.field msg.field.field r c)
          ≠ occupied (X.field r c)) ∧
      ((∃ r c, g.field_b.field r c ≠ chHit ∧ g.field_b.field r c ≠ chMiss ∧
          occupied (msg.field.field r c) ≠ occupied (X.field r c)) → warn = true) := by
  have hkeyM : (finish_merge g.field_b msg.field).key = X.key := by
    simp only [finish_merge]
    exact hkey
  have hiff := hash_check_iff sha1 hlen (finish_merge g.field_b msg.field) X g.opponent_hash
    hkeyM hstored hinner houter
  have hcells : occupancy_vector (finish_merge g.field_b msg.field) ≠ occupancy_vector X ↔
      ∃ r c, occupied (merged_cell g.field_b.field msg.field.field r c)
        ≠ occupied (X.field r c) := by
    rw [Ne, occupancy_vector_eq_iff]
    simp only [finish_merge, finish_merge_field_apply, not_forall]
  rw [finish_on_reveal sha1 g msg rest hv ht]
  refine ⟨_, _, _, rfl, ?_, ?_, ?_⟩
  · intro r c
    simp only [finish_merge, finish_merge_field_apply]
  · exact hiff.trans hcells
  · rintro ⟨r, c, h1, h2, h3⟩
    apply (hiff.trans hcells).mpr
    refine ⟨r, c, ?_⟩
    simp only [merged_cell, if_pos (And.intro h1 h2)]
    exact h3

/-- Witness for C6 (amended): the same committed and revealed fields as in the
counterexample, but a local view without any mark; the warning is emitted. -/
theorem finish_check_detects_witness :
    ∃ g1 w, finish toy_sha1 (receiver_after_ready toy_sha1 (one_ship_field 0) fresh_session.field_b)
        [reveal_msg water_field] = finish_result.game_over g1 w true := by
  obtain ⟨g1, w, warn, h1, _, _, h4⟩ := finish_check_detects toy_sha1
    (receiver_after_ready toy_sha1 (one_ship_field 0) fresh_session.field_b) (one_ship_field 0)
    (reveal_msg water_field) [] toy_sha1_length rfl rfl rfl
    (by simp [receiver_after_ready, game_store_ready, game_ready_msg, game_commit,
        memcpy, session_of, mk_msg, List.take_take])
    (toy_sha1_inj _ _) (toy_sha1_inj _ _)
  have hw : warn = true := h4 ⟨0, 0, by decide, by decide, by decide⟩
  rw [hw] at h1
  exact ⟨g1, w, h1⟩

/-! ## Claim on `hmac_battlefield` as HMAC-SHA1 -/

theorem getElem?_flatMap_const {α β : Type} (g : α → List β) (k : Nat)
    (hk : ∀ a, (g a).length = k) :
    ∀ (l : List α) (i j : Nat), j < k →
      (l.flatMap g)[k * i + j]? = (l[i]?).bind (fun a => (g a)[j]?) := by
  intro l
  induction l with
  | nil => intro i j _; simp
  | cons a l ih =>
    intro i j hj
    cases i with
    | zero =>
      simp only [List.flatMap_cons, Nat.mul_zero, Nat.zero_add, List.getElem?_cons_zero,
        Option.some_bind]
      rw [List.getElem?_append_left (by rw [hk]; exact hj)]
    | succ i =>
      simp only [List.flatMap_cons, List.getElem?_cons_succ]
      rw [List.getElem?_append_right (by rw [hk]; nlinarith)]
      rw [hk, ← ih i j hj]
      congr 1
      rw [Nat.mul_succ]
      omega

theorem finRange_getElem? : ∀ r : Fin 9, (List.finRange 9)[r.val]? = some r := by decide

/-- The occupancy vector is row-major: byte `9 * r + c` belongs to the cell `[r][c]`. -/
theorem occupancy_vector_getElem? (f : battlefield) (r c : Fin 9) :
    (occupancy_vector f)[9 * r.val + c.val]? =
      some (if occupied (f.field r c) = true then 1 else 0) := by
  unfold occupancy_vector
  rw [getElem?_flatMap_const _ 9 (by intro a; simp) (List.finRange 9) r.val c.val c.isLt]
  rw [finRange_getElem? r]
  simp only [Option.some_bind, List.getElem?_map, finRange_getElem? c, Option.map_some']

/-- C7: for every field and 64 byte key, `hmac_battlefield` returns
HMAC-SHA1(key, occupancy vector), that is
`SHA1((key xor 0x5c..) || SHA1((key xor 0x36..) || data))` with `data` the 81
byte row-major occupancy vector of the field (SHA-1 an abstract function with
20 byte digests); two fields with the same occupancy vector and the same key
get the same digest. -/
theorem hmac_battlefield_is_hmac_sha1 (sha1 : List Nat → List Nat)
    (hlen : ∀ m, (sha1 m).length = SHA_DIGEST_LENGTH) (f : battlefield) :
    hmac_battlefield sha1 f = HMAC_SHA1 sha1 (List.ofFn f.key) (occupancy_vector f) ∧
    hmac_battlefield sha1 f =
      sha1 ((List.ofFn f.key).map (fun k => k ^^^ 0x5c) ++
        sha1 ((List.ofFn f.key).map (fun k => k ^^^ 0x36) ++ occupancy_vector f)) ∧
    (List.ofFn f.key).length = 64 ∧
    (occupancy_vector f).length = 81 ∧
    (∀ r c : Fin 9, (occupancy_vector f)[9 * r.val + c.val]? =
      some (if f.field r c = chHit ∨ isdigit (f.field r c) = true then 1 else 0)) ∧
    (∀ f2 : battlefield, f2.key = f.key → occupancy_vector f2 = occupancy_vector f →
      hmac_battlefield sha1 f2 = hmac_battlefield sha1 f) := by
  refine ⟨hmac_battlefield_eq sha1 hlen f, hmac_battlefield_formula sha1 hlen f,
    List.length_ofFn _, occupancy_vector_length f, ?_, ?_⟩
  · intro r c
    rw [occupancy_vector_getElem?]
    simp [occupied]
  · intro f2 hk ho
    exact hmac_battlefield_congr sha1 f2 f hk ho

/-- Witness for C7: the field with one ship cell, under the stand-in digest. -/
theorem hmac_battlefield_is_hmac_sha1_witness :
    hmac_battlefield toy_sha1 (one_ship_field 0) =
      HMAC_SHA1 toy_sha1 (List.ofFn (one_ship_field 0).key)
        (occupancy_vector (one_ship_field 0)) :=
  (hmac_battlefield_is_hmac_sha1 toy_sha1 toy_sha1_length (one_ship_field 0)).1

/-! ## Claims on the winner, the first mover and GameQuit -/

/-- C9, the claim as stated fails: for the host (`create_game` TRUE) the
initial `wait_for_opponent` flag is FALSE, and for the joiner it is TRUE. -/
theorem game_initial_wait_host_false :
    game_initial_wait true = false ∧ game_initial_wait false = true := by
  decide

/-- C9 (amended): in the initial state of the turn loop the host is the side to
move and the joiner waits for an attack first: for every role the initial
`wait_for_opponent` flag is the negation of `create_game`, so with no hits yet
the host's first step is the attack prompt and the joiner's first step is to
read the opponent's attack. -/
theorem game_host_moves_first (create_game : Bool) (g : game_session) :
    game_initial_wait create_game = !create_game ∧
    game_turn_head (init_fields g) (game_initial_wait true) = turn_action.prompt_move ∧
    game_turn_head (init_fields g) (game_initial_wait false) = turn_action.read_attack := by
  refine ⟨rfl, ?_, ?_⟩
  · simp [game_turn_head, game_initial_wait, init_fields]
  · simp [game_turn_head, game_initial_wait]

/-- C10, code at the failing input: while the process waits for the response to
its own attack, a GameQuit frame of the right version is dropped without any
report and the loop goes on reading (it is still blocked in `net_read` when
nothing follows, and a later GameHit is processed as if the GameQuit had never
come); the loop that waits for the opponent's attack reports the departure and
exits on the same frame. -/
theorem game_response_loop_drops_quit :
    game_response_loop fresh_session [mk_msg MSG_TYPE_GAME_QUIT ⟨0, 0⟩]
      = response_result.blocked fresh_session ∧
    game_response_loop fresh_session
        [mk_msg MSG_TYPE_GAME_QUIT ⟨0, 0⟩, mk_msg MSG_TYPE_GAME_HIT ⟨1, 1⟩]
      = game_response_loop fresh_session [mk_msg MSG_TYPE_GAME_HIT ⟨1, 1⟩] ∧
    (∃ g1, game_response_loop fresh_session
        [mk_msg MSG_TYPE_GAME_QUIT ⟨0, 0⟩, mk_msg MSG_TYPE_GAME_HIT ⟨1, 1⟩]
      = response_result.responded g1 []) ∧
    game_wait_loop fresh_session 0 [mk_msg MSG_TYPE_GAME_QUIT ⟨0, 0⟩]
      = wait_result.opponent_left := by
  refine ⟨rfl, rfl, ⟨_, rfl⟩, rfl⟩

/-! ## Claim on malformed attacks -/

/-- The two models of `attack` agree: the result is the flag together with the
field in memory, and there is no result exactly when the call exits. -/
theorem attack_eq_attack_mem (b : battlefield) (msg : net_msg) :
    attack b msg = (attack_mem b msg).2.map (fun flag => (flag, (attack_mem b msg).1)) := by
  unfold attack attack_mem
  by_cases h : ((msg.point.x : Nat) : Int) ≥ (BFIELD_SIZEX : Int) ∨
      ((msg.point.y : Nat) : Int) ≥ (BFIELD_SIZEY : Int) ∨
      ((msg.point.x : Nat) : Int) < 0 ∨ ((msg.point.y : Nat) : Int) < 0
  · simp only [dif_pos h, Option.map_none']
  · simp only [dif_neg h]
    split <;> rfl

theorem attack_mem_in (b : battlefield) (msg : net_msg) (r c : Fin 9)
    (hx : msg.point.x = c.val) (hy : msg.point.y = r.val) :
    attack_mem b msg =
      if isdigit (b.field r c) = true then
        ({ b with field := setCell b.field r c chHit, hits := (b.hits + 1) % 256 }, some true)
      else ({ b with field := setCell b.field r c chMiss }, some false) := by
  have h1 : ¬ (((msg.point.x : Nat) : Int) ≥ (BFIELD_SIZEX : Int) ∨
      ((msg.point.y : Nat) : Int) ≥ (BFIELD_SIZEY : Int) ∨
      ((msg.point.x : Nat) : Int) < 0 ∨ ((msg.point.y : Nat) : Int) < 0) := by
    have := r.isLt
    have := c.isLt
    simp only [BFIELD_SIZEX, BFIELD_SIZEY]
    omega
  have hr : (⟨((msg.point.y : Nat) : Int).toNat, by have := r.isLt; omega⟩ : Fin 9) = r := by
    apply Fin.ext; simp only; omega
  have hc : (⟨((msg.point.x : Nat) : Int).toNat, by have := c.isLt; omega⟩ : Fin 9) = c := by
    apply Fin.ext; simp only; omega
  simp only [attack_mem]
  rw [dif_neg h1]
  simp only [hr, hc]

theorem attack_out (b : battlefield) (msg : net_msg)
    (h : msg.point.x > 8 ∨ msg.point.y > 8) :
    attack b msg = none ∧ attack_mem b msg = (b, none) := by
  have h1 : ((msg.point.x : Nat) : Int) ≥ (BFIELD_SIZEX : Int) ∨
      ((msg.point.y : Nat) : Int) ≥ (BFIELD_SIZEY : Int) ∨
      ((msg.point.x : Nat) : Int) < 0 ∨ ((msg.point.y : Nat) : Int) < 0 := by
    simp only [BFIELD_SIZEX, BFIELD_SIZEY]
    omega
  unfold attack attack_mem
  simp only [dif_pos h1, and_self]

/-- C11: for every GameAttack whose coordinate has x > 8 or y > 8, `attack`
exits (the malformed-attack abort) with the field, cells and hit counter alike,
exactly as it was, and the loop that waits for the attack ends in the abort;
for every coordinate with x and y in 0..8 `attack` returns a result.  So
`attack` aborts exactly on the coordinates outside the grid. -/
theorem attack_aborts_iff_malformed (b : battlefield) (msg : net_msg) :
    (attack b msg = none ↔ (msg.point.x > 8 ∨ msg.point.y > 8)) ∧
    ((msg.point.x > 8 ∨ msg.point.y > 8) → attack_mem b msg = (b, none)) ∧
    ((msg.point.x ≤ 8 ∧ msg.point.y ≤ 8) →
      ∃ flag b1, attack b msg = some (flag, b1) ∧ attack_mem b msg = (b1, some flag)) ∧
    (∀ (g : game_session) (invalid : Nat) (rest : List net_msg),
      msg.msg_version = RKUBS_NET_VERSION_N → msg.msg_type = MSG_TYPE_GAME_ATTACK →
      (msg.point.x > 8 ∨ msg.point.y > 8) →
      game_wait_loop g invalid (msg :: rest) = wait_result.aborted) := by
  have hin : (msg.point.x ≤ 8 ∧ msg.point.y ≤ 8) →
      ∃ flag b1, attack b msg = some (flag, b1) ∧ attack_mem b msg = (b1, some flag) := by
    rintro ⟨hx, hy⟩
    rw [attack_in b msg ⟨msg.point.y, by omega⟩ ⟨msg.point.x, by omega⟩ rfl rfl,
      attack_mem_in b msg ⟨msg.point.y, by omega⟩ ⟨msg.point.x, by omega⟩ rfl rfl]
    cases hd : isdigit (b.field ⟨msg.point.y, by omega⟩ ⟨msg.point.x, by omega⟩)
    · simp only [Bool.false_eq_true, if_false]
      exact ⟨false, _, rfl, rfl⟩
    · simp only [if_true]
      exact ⟨true, _, rfl, rfl⟩
  refine ⟨⟨?_, fun h => (attack_out b msg h).1⟩, fun h => (attack_out b msg h).2, hin, ?_⟩
  · intro hnone
    by_contra hc
    obtain ⟨flag, b1, hs, _⟩ := hin (by omega)
    rw [hs] at hnone
    exact Option.noConfusion hnone
  · intro g invalid rest hv ht hout
    simp [game_wait_loop, net_read, hv, ht, (attack_out g.field_a msg hout).1]

/-- Instance of C11: the coordinate (9,9) aborts and leaves the field as it
was, the corner (8,8) does not abort. -/
theorem attack_aborts_iff_malformed_witness :
    attack (one_ship_field 0) (mk_msg MSG_TYPE_GAME_ATTACK ⟨9, 9⟩) = none ∧
    (attack_mem (one_ship_field 0) (mk_msg MSG_TYPE_GAME_ATTACK ⟨9, 9⟩)).2 = none ∧
    attack (one_ship_field 0) (mk_msg MSG_TYPE_GAME_ATTACK ⟨8, 8⟩) ≠ none := by
  have h9 := attack_aborts_iff_malformed (one_ship_field 0) (mk_msg MSG_TYPE_GAME_ATTACK ⟨9, 9⟩)
  have h8 := attack_aborts_iff_malformed (one_ship_field 0) (mk_msg MSG_TYPE_GAME_ATTACK ⟨8, 8⟩)
  refine ⟨h9.1.mpr (Or.inl (by decide)), ?_, ?_⟩
  · rw [h9.2.1 (Or.inl (by decide))]
  · intro hn
    exact absurd (h8.1.mp hn) (by decide)

/-! ## Claim on the merge of `finish` -/

/-- C12, code at the failing input: after a GameFailed response for (0,0) the
local view records the miss as `'~'`; the merge of `finish` keeps only `'X'`
and `'x'`, so that cell takes the revealed value (here the ship character
`'1'`) and the local miss mark is lost.  This holds for every view and every
revealed field.  A cell recorded as hit keeps its `'X'`, and an unknown cell
takes the revealed value, as the claim says. -/
theorem finish_merge_overwrites_miss :
    (process_attack_response fresh_session (mk_msg MSG_TYPE_GAME_FAILED ⟨0, 0⟩)).map
      (fun res => res.2.field_b.field 0 0) = some chWater ∧
    (process_attack_response fresh_session (mk_msg MSG_TYPE_GAME_FAILED ⟨0, 0⟩)).map
      (fun res => (finish_merge res.2.field_b (one_ship_field 0)).field 0 0) = some chOne ∧
    (∀ (view revealed : battlefield) (r c : Fin 9), view.field r c = chWater →
      (finish_merge view revealed).field r c = revealed.field r c) ∧
    (∀ (view revealed : battlefield) (r c : Fin 9), view.field r c = chHit →
      (finish_merge view revealed).field r c = chHit) ∧
    (∀ (view revealed : battlefield) (r c : Fin 9), view.field r c = chUnknown →
      (finish_merge view revealed).field r c = revealed.field r c) := by
  refine ⟨by decide, ?_, ?_, ?_, ?_⟩
  · simp only [finish_merge, finish_merge_field_apply]
    decide
  · intro view revealed r c h
    simp [finish_merge, finish_merge_field_apply, merged_cell, h]
  · intro view revealed r c h
    simp [finish_merge, finish_merge_field_apply, merged_cell, h]
  · intro view revealed r c h
    simp [finish_merge, finish_merge_field_apply, merged_cell, h]

/-! ## Claim on the number of ship pieces -/

/-- Writing one cell changes the number of intact segments by the difference
of "is a ship character" between the new and the old content. -/
theorem intact_count_setCell (f f1 : battlefield) (r c : Fin 9) (v : Nat)
    (hf : f1.field = setCell f.field r c v) :
    intact_count f1 + (if isdigit (f.field r c) = true then 1 else 0) =
      intact_count f + (if isdigit v = true then 1 else 0) := by
  unfold intact_count
  rw [← Finset.add_sum_erase Finset.univ
      (fun p : Fin 9 × Fin 9 => if isdigit (f1.field p.1 p.2) = true then 1 else 0)
      (Finset.mem_univ (r, c)),
    ← Finset.add_sum_erase Finset.univ
      (fun p : Fin 9 × Fin 9 => if isdigit (f.field p.1 p.2) = true then 1 else 0)
      (Finset.mem_univ (r, c))]
  have hrest : ∑ p ∈ Finset.univ.erase (r, c),
        (if isdigit (f1.field p.1 p.2) = true then 1 else 0) =
      ∑ p ∈ Finset.univ.erase (r, c), (if isdigit (f.field p.1 p.2) = true then 1 else 0) := by
    apply Finset.sum_congr rfl
    intro p hp
    have hne : ¬ (p.1 = r ∧ p.2 = c) := by
      rintro ⟨h1, h2⟩
      exact (Finset.mem_erase.mp hp).1 (Prod.ext h1 h2)
    simp [hf, setCell, hne]
  have hown : f1.field r c = v := by simp [hf, setCell]
  simp only [hrest, hown]
  omega

theorem dirDelta_shape (d : Nat) :
    (dirDelta d).1 = 1 ∨ ((dirDelta d).1 = 0 ∧ (dirDelta d).2 = 1) := by
  unfold dirDelta
  split <;> simp

/-- The run of `n` free in-grid cells written with a ship character adds `n`
intact segments. -/
theorem intact_count_run (f : battlefield) (v : Nat) (hv : isdigit v = true) (x y : Int)
    (d : Int × Int) (hd : d.1 = 1 ∨ (d.1 = 0 ∧ d.2 = 1)) :
    ∀ n : Nat,
      (∀ i, i < n → inGrid (x + i * d.1, y + i * d.2) ∧
        ¬ occupiedAt f (x + i * d.1, y + i * d.2)) →
      intact_count { f with field := fun r c =>
          if ∃ i, i < n ∧ (x + i * d.1, y + i * d.2) = (((c : Nat) : Int), ((r : Nat) : Int))
          then v else f.field r c } = intact_count f + n := by
  intro n
  induction n with
  | zero =>
    intro _
    simp
  | succ n ih =>
    intro h
    have hn := h n (Nat.lt_succ_self n)
    obtain ⟨r0, c0, hc0, hr0⟩ := inGrid_fin hn.1
    have hfree := not_occupiedAt_fin hn.2 r0 c0 hc0 hr0
    simp only at hc0 hr0
    have hprev := ih (fun i hi => h i (Nat.lt_succ_of_lt hi))
    have hnot : ¬ ∃ i, i < n ∧ (x + i * d.1, y + i * d.2)
        = (((c0 : Nat) : Int), ((r0 : Nat) : Int)) := by
      rintro ⟨i, hi, he⟩
      simp only [Prod.mk.injEq] at he
      rcases hd with h1 | ⟨h1, h2⟩
      · rw [h1] at he hc0
        omega
      · rw [h2] at he hr0
        omega
    have hstep := intact_count_setCell
      { f with field := fun r c =>
          if ∃ i, i < n ∧ (x + i * d.1, y + i * d.2) = (((c : Nat) : Int), ((r : Nat) : Int))
          then v else f.field r c }
      { f with field := fun r c =>
          if ∃ i, i < n + 1 ∧ (x + i * d.1, y + i * d.2)
            = (((c : Nat) : Int), ((r : Nat) : Int))
          then v else f.field r c }
      r0 c0 v (by
        funext r c
        simp only [setCell]
        by_cases h00 : r = r0 ∧ c = c0
        · rw [if_pos h00, if_pos]
          exact ⟨n, Nat.lt_succ_self n, by rw [h00.1, h00.2, hc0, hr0]⟩
        · rw [if_neg h00]
          by_cases hex : ∃ i, i < n ∧ (x + i * d.1, y + i * d.2)
              = (((c : Nat) : Int), ((r : Nat) : Int))
          · rw [if_pos hex, if_pos]
            obtain ⟨i, hi, he⟩ := hex
            exact ⟨i, Nat.lt_succ_of_lt hi, he⟩
          · rw [if_neg hex, if_neg]
            rintro ⟨i, hi, he⟩
            rcases Nat.lt_succ_iff_lt_or_eq.mp hi with hlt | heq
            · exact hex ⟨i, hlt, he⟩
            · apply h00
              rw [heq] at he
              simp only [Prod.mk.injEq] at he
              constructor <;> apply Fin.ext <;> omega)
    simp only [if_neg hnot, hfree, hv, Bool.false_eq_true, if_false, if_true, add_zero] at hstep
    rw [hstep, hprev]
    omega

/-- A successful `set_ship` adds `size` intact segments and keeps the hit counter. -/
theorem set_ship_true_count (sh : Fin 3 → ship) (g : game_session) (si : Fin 3)
    (hok : (set_ship sh g si).1 = true) :
    intact_count (set_ship sh g si).2.field_a = intact_count g.field_a + (sh si).size ∧
    (set_ship sh g si).2.field_a.hits = g.field_a.hits := by
  by_cases hbad : ∃ i, i < (sh si).size ∧
      (¬ inGrid (((sh si).position.x : Int) + i * (dirDelta (sh si).direction).1,
          ((sh si).position.y : Int) + i * (dirDelta (sh si).direction).2) ∨
        occupiedAt g.field_a (((sh si).position.x : Int) + i * (dirDelta (sh si).direction).1,
          ((sh si).position.y : Int) + i * (dirDelta (sh si).direction).2))
  · have hloop := set_ship_loop_none g.field_a si.val (sh si).direction (sh si).size
      ((sh si).position.x : Int) ((sh si).position.y : Int) g.field_a hbad
    have hs : (set_ship sh g si).1 = false := by
      simp only [set_ship, hloop]
    rw [hs] at hok
    exact absurd hok (by decide)
  · have hall : ∀ i, i < (sh si).size →
        inGrid (((sh si).position.x : Int) + i * (dirDelta (sh si).direction).1,
          ((sh si).position.y : Int) + i * (dirDelta (sh si).direction).2) ∧
        ¬ occupiedAt g.field_a
          (((sh si).position.x : Int) + i * (dirDelta (sh si).direction).1,
          ((sh si).position.y : Int) + i * (dirDelta (sh si).direction).2) := by
      intro i hi
      constructor
      · by_contra hc
        exact hbad ⟨i, hi, Or.inl hc⟩
      · intro hc
        exact hbad ⟨i, hi, Or.inr hc⟩
    have hloop := set_ship_loop_some g.field_a si.val (sh si).direction (sh si).size
      ((sh si).position.x : Int) ((sh si).position.y : Int) g.field_a hall
    have hv : isdigit ((chOne + si.val) % 256) = true := by
      have := si.isLt
      have e : (chOne + si.val) % 256 = chOne + si.val := by
        simp only [chOne]; omega
      rw [e]
      simp only [isdigit, chOne, decide_eq_true_eq]
      omega
    have hcount := intact_count_run g.field_a ((chOne + si.val) % 256) hv
      ((sh si).position.x : Int) ((sh si).position.y : Int) (dirDelta (sh si).direction)
      (dirDelta_shape _) (sh si).size hall
    simp only [set_ship, hloop]
    exact ⟨hcount, trivial⟩

/-- An in-bounds attack returns and keeps "intact segments plus hits", as long
as that total is the number of ship pieces. -/
theorem attack_keeps_total (b : battlefield) (msg : net_msg)
    (hx : msg.point.x < 9) (hy : msg.point.y < 9)
    (hinv : intact_count b + b.hits = SHIP_PIECES) :
    ∃ res, attack b msg = some res ∧ intact_count res.2 + res.2.hits = SHIP_PIECES := by
  rw [attack_in b msg ⟨msg.point.y, hy⟩ ⟨msg.point.x, hx⟩ rfl rfl]
  cases hd : isdigit (b.field ⟨msg.point.y, hy⟩ ⟨msg.point.x, hx⟩)
  · simp only [Bool.false_eq_true, if_false]
    refine ⟨_, rfl, ?_⟩
    have hstep := intact_count_setCell b
      { b with field := setCell b.field ⟨msg.point.y, hy⟩ ⟨msg.point.x, hx⟩ chMiss }
      ⟨msg.point.y, hy⟩ ⟨msg.point.x, hx⟩ chMiss rfl
    have hm : isdigit chMiss = false := by decide
    simp only [hd, hm, Bool.false_eq_true, if_false, add_zero] at hstep
    simp only [hstep]
    exact hinv
  · simp only [if_true]
    refine ⟨_, rfl, ?_⟩
    have hstep := intact_count_setCell b
      { b with field := setCell b.field ⟨msg.point.y, hy⟩ ⟨msg.point.x, hx⟩ chHit,
               hits := (b.hits + 1) % 256 }
      ⟨msg.point.y, hy⟩ ⟨msg.point.x, hx⟩ chHit rfl
    have hm : isdigit chHit = false := by decide
    simp only [hd, hm, Bool.false_eq_true, if_false, if_true, add_zero] at hstep
    simp only [SHIP_PIECES] at hinv ⊢
    omega

theorem attacks_keep_total :
    ∀ (ms : List net_msg) (b : battlefield),
      (∀ m ∈ ms, m.point.x < 9 ∧ m.point.y < 9) →
      intact_count b + b.hits = SHIP_PIECES →
      ∃ b1, attacks b ms = some b1 ∧ intact_count b1 + b1.hits = SHIP_PIECES := by
  intro ms
  induction ms with
  | nil =>
    intro b _ hinv
    exact ⟨b, rfl, hinv⟩
  | cons m ms ih =>
    intro b hin hinv
    have hm := hin m (List.mem_cons_self m ms)
    obtain ⟨res, hres, hres2⟩ := attack_keeps_total b m hm.1 hm.2 hinv
    obtain ⟨b1, hb1, hb2⟩ := ih res.2 (fun m1 h1 => hin m1 (List.mem_cons_of_mem m h1)) hres2
    exact ⟨b1, by simp only [attacks, hres, hb1], hb2⟩

theorem intact_count_init_fields (g : game_session) :
    intact_count (init_fields g).field_a = 0 ∧ (init_fields g).field_a.hits = 0 := by
  constructor
  · unfold intact_count init_fields
    apply Finset.sum_eq_zero
    intro p _
    have hw : isdigit chWater = false := by decide
    simp only [hw, Bool.false_eq_true, if_false]
  · rfl

/-- C13: start from `init_fields`, place ship 0, ship 1 and ship 2 (sizes 2, 4
and 6, as in `ships`) by one successful `set_ship` each, then apply any
sequence of in-bounds attacks.  Right after placement the field has exactly 12
ship cells and no hits; every attack returns, and on the field after the
attacks the number of intact ship segments plus the hit counter is 12
(`SHIP_PIECES`); hence `hits >= SHIP_PIECES` holds exactly when no intact
segment remains. -/
theorem ship_pieces_total (g0 g1 g2 g3 : game_session) (sh0 sh1 sh2 : Fin 3 → ship)
    (ms : List net_msg)
    (hsz0 : (sh0 0).size = (ships 0).size) (hsz1 : (sh1 1).size = (ships 1).size)
    (hsz2 : (sh2 2).size = (ships 2).size)
    (hset0 : set_ship sh0 (init_fields g0) 0 = (true, g1))
    (hset1 : set_ship sh1 g1 1 = (true, g2))
    (hset2 : set_ship sh2 g2 2 = (true, g3))
    (hin : ∀ m ∈ ms, m.point.x < 9 ∧ m.point.y < 9) :
    intact_count g3.field_a = SHIP_PIECES ∧ g3.field_a.hits = 0 ∧
    ∃ b, attacks g3.field_a ms = some b ∧
      intact_count b + b.hits = SHIP_PIECES ∧
      (b.hits ≥ SHIP_PIECES ↔ intact_count b = 0) := by
  have h0 := set_ship_true_count sh0 (init_fields g0) 0 (by rw [hset0])
  have h1 := set_ship_true_count sh1 g1 1 (by rw [hset1])
  have h2 := set_ship_true_count sh2 g2 2 (by rw [hset2])
  rw [hset0] at h0
  rw [hset1] at h1
  rw [hset2] at h2
  simp only at h0 h1 h2
  have hi := intact_count_init_fields g0
  have e0 : (ships 0).size = 2 := rfl
  have e1 : (ships 1).size = 4 := rfl
  have e2 : (ships 2).size = 6 := rfl
  have hcount : intact_count g3.field_a = SHIP_PIECES := by
    simp only [SHIP_PIECES]
    omega
  have hhits : g3.field_a.hits = 0 := by omega
  obtain ⟨b, hb, hinv⟩ := attacks_keep_total ms g3.field_a hin (by rw [hcount, hhits])
  refine ⟨hcount, hhits, b, hb, hinv, ?_⟩
  simp only [SHIP_PIECES] at hinv ⊢
  omega

/-- Witness for C13: the three ships side by side in rows 0, 1 and 2; the
segment at (0,0) is attacked twice and the water cell (5,5) once. -/
theorem ship_pieces_total_witness :
    ∃ b, attacks
        (set_ship (place ships 2 SHIP_DIRECTION_H ⟨0, 2⟩)
          (set_ship (place ships 1 SHIP_DIRECTION_H ⟨0, 1⟩)
            (set_ship (place ships 0 SHIP_DIRECTION_H ⟨0, 0⟩)
              (init_fields fresh_session) 0).2 1).2 2).2.field_a
        [mk_msg MSG_TYPE_GAME_ATTACK ⟨0, 0⟩, mk_msg MSG_TYPE_GAME_ATTACK ⟨0, 0⟩,
          mk_msg MSG_TYPE_GAME_ATTACK ⟨5, 5⟩] = some b ∧
      intact_count b + b.hits = SHIP_PIECES := by
  obtain ⟨_, _, b, hb, hinv, _⟩ := ship_pieces_total fresh_session
    (set_ship (place ships 0 SHIP_DIRECTION_H ⟨0, 0⟩) (init_fields fresh_session) 0).2
    (set_ship (place ships 1 SHIP_DIRECTION_H ⟨0, 1⟩)
      (set_ship (place ships 0 SHIP_DIRECTION_H ⟨0, 0⟩) (init_fields fresh_session) 0).2 1).2
    (set_ship (place ships 2 SHIP_DIRECTION_H ⟨0, 2⟩)
      (set_ship (place ships 1 SHIP_DIRECTION_H ⟨0, 1⟩)
        (set_ship (place ships 0 SHIP_DIRECTION_H ⟨0, 0⟩)
          (init_fields fresh_session) 0).2 1).2 2).2
    (place ships 0 SHIP_DIRECTION_H ⟨0, 0⟩) (place ships 1 SHIP_DIRECTION_H ⟨0, 1⟩)
    (place ships 2 SHIP_DIRECTION_H ⟨0, 2⟩)
    [mk_msg MSG_TYPE_GAME_ATTACK ⟨0, 0⟩, mk_msg MSG_TYPE_GAME_ATTACK ⟨0, 0⟩,
      mk_msg MSG_TYPE_GAME_ATTACK ⟨5, 5⟩]
    rfl rfl rfl
    (Prod.ext (by decide) rfl) (Prod.ext (by decide) rfl) (Prod.ext (by decide) rfl)
    (by decide)
  exact ⟨b, hb, hinv⟩

end Rkubs
